import Mathlib

/-!
# Car parking management system (`src/car.c`)

Shallow embedding of the allocation / queueing / billing core of `car.c`.

Modelling conventions.
* A C string held in a `char[MAX_REG_LEN]` buffer is the list of its characters
  up to the terminating NUL (`Reg`).  `strncpy(dst, src, MAX_REG_LEN-1)` into
  such a buffer keeps the first `MAX_REG_LEN-1` characters of `src`.
* `int` and `time_t` values are mathematical integers.
* The two arrays are finite maps on their index ranges; an access outside the
  array (undefined behaviour in C) makes the embedded function return `none`.
* `scanf` and `time(NULL)` are inputs: the registration read and the clock
  value returned by each `time(NULL)` call are parameters.
* `printf` / `appendRecord` calls are returned as a list of `Event`s.
* `double` arithmetic of the fee computation is carried out in `ℚ`.
* `state.dat` is the sequence of blocks written by the `fwrite` calls of `saveState`.
* `Reachable` collects the states that `main` reaches from `initQueue` and
  `initParkingLot(MAX_ROWS, MAX_COLS)` through `carEntry` and `carExit`.
-/

namespace Parking

abbrev MAX_ROWS : Nat := 4
abbrev MAX_COLS : Nat := 5
abbrev MAX_REG_LEN : Nat := 32
abbrev QUEUE_CAP : Nat := 50
/-- The constant `RATE_PER_HOUR` of the source (20.0). -/
def RATE_PER_HOUR : ℚ := 20

/-- Contents of a NUL-terminated `char` buffer. -/
abbrev Reg := List Char

/-- Slot representation (`typedef struct { ... } Slot`). -/
structure Slot where
  /-- 0 = free, 1 = occupied -/
  occupied : Int
  /-- vehicle registration / id -/
  reg : Reg
  /-- timestamp when car entered -/
  entry_time : Int
deriving DecidableEq

/-- Parking lot as 2D array wrapper. -/
structure ParkingLot where
  rows : Int
  cols : Int
  slots : Fin MAX_ROWS → Fin MAX_COLS → Slot

/-- Simple queue for waiting vehicles (circular buffer of registrations). -/
structure Queue where
  items : Fin QUEUE_CAP → Reg
  front : Int
  rear : Int
  size : Int

/-- What the program prints or appends to the records file. -/
inductive Event where
  /-- "Waiting queue is full. Cannot enqueue %s" -/
  | queueFull (reg : Reg)
  /-- "This vehicle is already parked in the lot." -/
  | alreadyParked
  /-- "Allocated slot: [%d,%d] to %s" -/
  | allocated (r c : Nat) (reg : Reg)
  /-- "Parking is full. Adding vehicle to waiting queue." -/
  | parkingFull
  /-- "Assigned queued vehicle %s to slot [%d,%d]" -/
  | assigned (reg : Reg) (r c : Nat)
  /-- "Vehicle not found in parking slots." -/
  | notFound
  /-- "Vehicle %s leaving slot [%d,%d]" with entry, exit, duration, billed hours, fee -/
  | leaving (reg : Reg) (r c : Nat) (entry exit : Int) (seconds billed_hours fee : ℚ)
  /-- the call `appendRecord(reg, entry_time, exit_time, fee)` -/
  | record (reg : Reg) (entry exit : Int) (fee : ℚ)
  /-- "Found in slot [%d,%d] - entry time: %ld" -/
  | foundInSlot (r c : Nat) (entry : Int)
  /-- "Found in waiting queue position %d" -/
  | foundInQueue (pos : Nat)
  /-- "Vehicle not found in parking or queue." -/
  | notFoundAnywhere
deriving DecidableEq

/-- Result of `strncpy(dst, src, n)` into a buffer whose byte `n` is NUL. -/
def strncpy (src : Reg) (n : Nat) : Reg := src.take n

/-! ## Queue -/

/-- Initialize queue: the items array is left as it is. -/
def initQueue (q : Queue) : Queue :=
  { q with front := 0, rear := -1, size := 0 }

def isQueueEmpty (q : Queue) : Bool := decide (q.size = 0)

def isQueueFull (q : Queue) : Bool := decide (q.size = QUEUE_CAP)

/-- Index into `q->items`; `none` outside the array. -/
def itemIdx (i : Int) : Option (Fin QUEUE_CAP) :=
  if h : 0 ≤ i ∧ i < QUEUE_CAP then some ⟨i.toNat, by omega⟩ else none

def enqueue (q : Queue) (reg : Reg) : Option (Queue × List Event) :=
  if isQueueFull q then some (q, [Event.queueFull reg])
  else
    let rear := Int.tmod (q.rear + 1) QUEUE_CAP
    match itemIdx rear with
    | none => none
    | some k =>
      some ({ items := Function.update q.items k (strncpy reg (MAX_REG_LEN - 1)),
              front := q.front, rear := rear, size := q.size + 1 }, [])

/-- The second component is the `out` buffer. -/
def dequeue (q : Queue) : Option (Queue × Reg) :=
  if isQueueEmpty q then some (q, [])
  else
    match itemIdx q.front with
    | none => none
    | some k =>
      some ({ items := q.items, front := Int.tmod (q.front + 1) QUEUE_CAP,
              rear := q.rear, size := q.size - 1 },
            strncpy (q.items k) (MAX_REG_LEN - 1))

/-- Loop of `displayQueue`: the `n` items printed starting at index `idx`. -/
def displayLoop (q : Queue) : Nat → Int → Option (List Reg)
  | 0, _ => some []
  | n + 1, idx =>
    match itemIdx idx with
    | none => none
    | some k =>
      match displayLoop q n (Int.tmod (idx + 1) QUEUE_CAP) with
      | none => none
      | some rest => some (q.items k :: rest)

/-- Display waiting queue: the registrations printed, front to rear. -/
def displayQueue (q : Queue) : Option (List Reg) :=
  if isQueueEmpty q then some [] else displayLoop q q.size.toNat q.front

/-! ## Parking lot -/

/-- Read of `p->slots[i][j]`; `none` outside the array. -/
def slotAt (p : ParkingLot) (i j : Nat) : Option Slot :=
  if h : i < MAX_ROWS ∧ j < MAX_COLS then some (p.slots ⟨i, h.1⟩ ⟨j, h.2⟩) else none

/-- Write of `p->slots[i][j]`; `none` outside the array. -/
def setSlot (p : ParkingLot) (i j : Nat) (s : Slot) : Option ParkingLot :=
  if h : i < MAX_ROWS ∧ j < MAX_COLS then
    some { rows := p.rows, cols := p.cols,
           slots := Function.update p.slots ⟨i, h.1⟩
                      (Function.update (p.slots ⟨i, h.1⟩) ⟨j, h.2⟩ s) }
  else none

/-- Inner loop `for(j...; j<p->cols; j++) if(test(slots[i][j])) return (i,j)`,
with `n` iterations left, at column `j`. -/
def scanRow (p : ParkingLot) (test : Slot → Bool) (i : Nat) :
    Nat → Nat → Option (Option (Nat × Nat))
  | 0, _ => some none
  | n + 1, j =>
    match slotAt p i j with
    | none => none
    | some s => if test s then some (some (i, j)) else scanRow p test i n (j + 1)

/-- Outer loop `for(i...; i<p->rows; i++)`, with `m` iterations left, at row `i`. -/
def scanLot (p : ParkingLot) (test : Slot → Bool) :
    Nat → Nat → Option (Option (Nat × Nat))
  | 0, _ => some none
  | m + 1, i =>
    match scanRow p test i p.cols.toNat 0 with
    | none => none
    | some (some rc) => some (some rc)
    | some none => scanLot p test m (i + 1)

/-- The row-major double loop shared by `findNearestFreeSlot` and `isCarParked`. -/
def scanSlots (p : ParkingLot) (test : Slot → Bool) : Option (Option (Nat × Nat)) :=
  scanLot p test p.rows.toNat 0

/-- Find nearest available slot (row-major): `some (some (r, c))` is return value 1
with `*out_r = r`, `*out_c = c`; `some none` is return value 0. -/
def findNearestFreeSlot (p : ParkingLot) : Option (Option (Nat × Nat)) :=
  scanSlots p (fun s => decide (s.occupied = 0))

/-- Check if reg already parked. -/
def isCarParked (p : ParkingLot) (reg : Reg) : Option (Option (Nat × Nat)) :=
  scanSlots p (fun s => decide (s.occupied ≠ 0) && decide (s.reg = reg))

/-- Car entry: assign slot or enqueue. `reg` is the registration read by `scanf`,
`now` the value of `time(NULL)`. -/
def carEntry (p : ParkingLot) (q : Queue) (reg : Reg) (now : Int) :
    Option (ParkingLot × Queue × List Event) :=
  match isCarParked p reg with
  | none => none
  | some (some _) => some (p, q, [Event.alreadyParked])
  | some none =>
    match findNearestFreeSlot p with
    | none => none
    | some (some (rr, cc)) =>
      match setSlot p rr cc ⟨1, strncpy reg (MAX_REG_LEN - 1), now⟩ with
      | none => none
      | some p1 => some (p1, q, [Event.allocated rr cc reg])
    | some none =>
      match enqueue q reg with
      | none => none
      | some (q1, ev) => some (p, q1, Event.parkingFull :: ev)

/-- When slot freed, if queue not empty assign first in queue. The source does not
rewrite byte `MAX_REG_LEN-1` of the slot's `reg` here; it is NUL in every slot that
`carEntry` has written, and the copied registration is read as NUL-terminated. -/
def assignFromQueueIfAny (p : ParkingLot) (q : Queue) (now : Int) :
    Option (ParkingLot × Queue × List Event) :=
  if isQueueEmpty q then some (p, q, [])
  else
    match findNearestFreeSlot p with
    | none => none
    | some none => some (p, q, [])
    | some (some (rr, cc)) =>
      match dequeue q with
      | none => none
      | some (q1, reg) =>
        match setSlot p rr cc ⟨1, strncpy reg (MAX_REG_LEN - 1), now⟩ with
        | none => none
        | some p1 => some (p1, q1, [Event.assigned reg rr cc])

/-- The function `difftime(t1, t0)`. -/
def difftime (t1 t0 : Int) : ℚ := (t1 : ℚ) - (t0 : ℚ)

/-- Lines 264-266 of `carExit`: `ceil(seconds / 3600.0)`, raised to at least 1. -/
def billedHours (seconds : ℚ) : ℚ :=
  let hours := seconds / 3600
  let billed_hours : ℚ := (⌈hours⌉ : Int)
  if billed_hours < 1 then 1 else billed_hours

/-- Line 267 of `carExit`: `fee = billed_hours * RATE_PER_HOUR`. -/
def feeFor (seconds : ℚ) : ℚ := billedHours seconds * RATE_PER_HOUR

/-- Car exit: search by reg, compute fee, free slot. `exit_time` is the clock read
in `carExit`, `assign_time` the one read in `assignFromQueueIfAny`. -/
def carExit (p : ParkingLot) (q : Queue) (reg : Reg) (exit_time assign_time : Int) :
    Option (ParkingLot × Queue × List Event) :=
  match isCarParked p reg with
  | none => none
  | some none => some (p, q, [Event.notFound])
  | some (some (rr, cc)) =>
    match slotAt p rr cc with
    | none => none
    | some s =>
      let entry_time := s.entry_time
      let seconds := difftime exit_time entry_time
      let billed_hours := billedHours seconds
      let fee := feeFor seconds
      match setSlot p rr cc ⟨0, [], 0⟩ with
      | none => none
      | some p1 =>
        match assignFromQueueIfAny p1 q assign_time with
        | none => none
        | some (p2, q2, ev) =>
          some (p2, q2,
            Event.leaving reg rr cc entry_time exit_time seconds billed_hours fee ::
              Event.record reg entry_time exit_time fee :: ev)

/-! ## Specification vocabulary -/

/-- The dimensions of the lot fit the `MAX_ROWS × MAX_COLS` array. -/
def ParkingLot.Valid (p : ParkingLot) : Prop := p.rows ≤ MAX_ROWS ∧ p.cols ≤ MAX_COLS

/-- Slot `(i, j)` lies in the `rows × cols` grid visited by the loops. -/
def InGrid (p : ParkingLot) (i j : Nat) : Prop := (i : Int) < p.rows ∧ (j : Int) < p.cols

/-- Position `(i, j)` comes strictly before `(r, c)` in row-major order. -/
def Before (i j r c : Nat) : Prop := i < r ∨ (i = r ∧ j < c)

/-- The slot at `(i, j)` exists and passes `test`. -/
def SlotSat (p : ParkingLot) (test : Slot → Bool) (i j : Nat) : Prop :=
  ∃ s, slotAt p i j = some s ∧ test s = true

/-- Position `(r, c)` is the first slot of the grid, in row-major order, passing `test`. -/
def FirstSat (p : ParkingLot) (test : Slot → Bool) (r c : Nat) : Prop :=
  InGrid p r c ∧ SlotSat p test r c ∧
    ∀ i j, InGrid p i j → Before i j r c → ¬ SlotSat p test i j

/-- Slot `(i, j)` is unoccupied. -/
def Free (p : ParkingLot) (i j : Nat) : Prop :=
  ∃ s, slotAt p i j = some s ∧ s.occupied = 0

/-- Slot `(i, j)` is occupied. -/
def Occupied (p : ParkingLot) (i j : Nat) : Prop :=
  ∃ s, slotAt p i j = some s ∧ s.occupied ≠ 0

/-- Slot `(i, j)` is occupied and stores the registration `id`. -/
def Holds (p : ParkingLot) (id : Reg) (i j : Nat) : Prop :=
  ∃ s, slotAt p i j = some s ∧ s.occupied ≠ 0 ∧ s.reg = id

/-- Position `(r, c)` is the first free slot of the grid in row-major order. -/
def FirstFree (p : ParkingLot) (r c : Nat) : Prop :=
  InGrid p r c ∧ Free p r c ∧ ∀ i j, InGrid p i j → Before i j r c → Occupied p i j

/-- Position `(r, c)` is the first slot of the grid, in row-major order, that is
occupied by `id`. -/
def ParkedAt (p : ParkingLot) (id : Reg) (r c : Nat) : Prop :=
  InGrid p r c ∧ Holds p id r c ∧ ∀ i j, InGrid p i j → Before i j r c → ¬ Holds p id i j

/-! ## Queue vocabulary -/

/-- The queue is a consistent ring buffer: indices in range and
`rear` one position before `front + size` (modulo the capacity). -/
def Queue.Valid (q : Queue) : Prop :=
  0 ≤ q.front ∧ q.front < 50 ∧ 0 ≤ q.size ∧ q.size ≤ 50 ∧ -1 ≤ q.rear ∧ q.rear < 50 ∧
    (q.rear + 1) % 50 = (q.front + q.size) % 50

/-- The array index `i` modulo the capacity. -/
def ringIdx (i : Int) : Fin QUEUE_CAP :=
  ⟨(i % 50).toNat, by show (i % 50).toNat < 50; omega⟩

/-- The item stored at index `i` modulo the capacity. -/
def Queue.at (q : Queue) (i : Int) : Reg := q.items (ringIdx i)

/-- The `size` items from `front` on, in ring order. -/
def Queue.contents (q : Queue) : List Reg :=
  (List.range q.size.toNat).map (fun (k : Nat) => q.at (q.front + (k : Int)))

/-- One call on the queue. -/
inductive QOp where
  | enq (reg : Reg)
  | deq

/-- Run a sequence of `enqueue` / `dequeue` calls; the second component lists the
`out` buffers of the `dequeue` calls, in order. -/
def runOps (q : Queue) : List QOp → Option (Queue × List Reg)
  | [] => some (q, [])
  | QOp.enq r :: ops =>
    match enqueue q r with
    | none => none
    | some (q1, _) => runOps q1 ops
  | QOp.deq :: ops =>
    match dequeue q with
    | none => none
    | some (q1, out) =>
      match runOps q1 ops with
      | none => none
      | some (q2, outs) => some (q2, out :: outs)

/-- Abstract bounded FIFO of the specification: `enqueue` appends at the end unless
50 elements are held. -/
def absEnqueue (l : List Reg) (id : Reg) : List Reg :=
  if l.length = 50 then l else l ++ [id]

/-- Abstract bounded FIFO of the specification: `dequeue` removes and returns the head,
or returns nothing on the empty queue. -/
def absDequeue : List Reg → List Reg × Option Reg
  | [] => ([], none)
  | x :: t => (t, some x)

/-- Run a sequence of calls on the abstract FIFO. -/
def absRun (l : List Reg) : List QOp → List Reg × List (Option Reg)
  | [] => (l, [])
  | QOp.enq r :: ops => absRun (absEnqueue l r) ops
  | QOp.deq :: ops =>
    let res := absRun (absDequeue l).1 ops
    (res.1, (absDequeue l).2 :: res.2)

instance (p : ParkingLot) : Decidable p.Valid := by
  unfold ParkingLot.Valid
  infer_instance

instance (q : Queue) : Decidable q.Valid := by
  unfold Queue.Valid
  infer_instance

/-- The registration passed to an `enqueue` call fits the `scanf("%31s")` buffer. -/
def QOp.Fits : QOp → Prop
  | QOp.enq r => r.length ≤ 31
  | QOp.deq => True

instance (op : QOp) : Decidable op.Fits := by
  cases op <;> unfold QOp.Fits <;> infer_instance

/-! ## Sample states -/

/-- A 4×5 lot with "KA01" at (0,0) since time 100 and "KA02" at (0,1) since time 200. -/
def lotTwo : ParkingLot :=
  ⟨4, 5, fun i j =>
    if i.val = 0 ∧ j.val = 0 then ⟨1, "KA01".toList, 100⟩
    else if i.val = 0 ∧ j.val = 1 then ⟨1, "KA02".toList, 200⟩
    else ⟨0, [], 0⟩⟩

/-- An empty queue. -/
def queueEmpty : Queue := initQueue ⟨fun _ => [], 0, 0, 0⟩

/-- A full 4×5 lot: slot `(i, j)` holds "V1" .. "V20" in row-major order, entered at 1000. -/
def lotFull : ParkingLot :=
  ⟨4, 5, fun i j => ⟨1, 'V' :: Nat.toDigits 10 (5 * i.val + j.val + 1), 1000⟩⟩

/-- A queue holding 50 registrations "W0" .. "W49". -/
def queueFifty : Queue := ⟨fun k => 'W' :: Nat.toDigits 10 k.val, 0, 49, 50⟩

/-- Sixty-two enqueues interleaved with dequeues: `front` and `rear` pass index 49. -/
def wrapOps : List QOp :=
  (List.replicate 31 [QOp.enq "KA01".toList, QOp.enq "KA02".toList, QOp.deq, QOp.deq]).flatten

/-- A queue holding the single registration "V21". -/
def queueOne : Queue := ⟨fun k => if k.val = 0 then "V21".toList else [], 0, 0, 1⟩

/-! ## Initialisation, search and persistence -/

/-- Inner loop of `initParkingLot`: clears `n` slots of row `i` from column `j` on. -/
def initRow (p : ParkingLot) (i : Nat) : Nat → Nat → Option ParkingLot
  | 0, _ => some p
  | n + 1, j =>
    match setSlot p i j ⟨0, [], 0⟩ with
    | none => none
    | some p1 => initRow p1 i n (j + 1)

/-- Outer loop of `initParkingLot`: clears `m` rows from row `i` on. -/
def initRows (p : ParkingLot) : Nat → Nat → Option ParkingLot
  | 0, _ => some p
  | m + 1, i =>
    match initRow p i p.cols.toNat 0 with
    | none => none
    | some p1 => initRows p1 m (i + 1)

/-- Initialize parking lot: sets the dimensions and clears the `rows × cols` grid;
slots outside the grid keep what the memory held. -/
def initParkingLot (p : ParkingLot) (rows cols : Int) : Option ParkingLot :=
  initRows { rows := rows, cols := cols, slots := p.slots } rows.toNat 0

/-- Queue loop of `searchVehicle`, with `n` iterations left, loop counter `i` and
array index `idx`; `some (some pos)` is the position printed. -/
def searchLoop (q : Queue) (reg : Reg) : Nat → Nat → Int → Option (Option Nat)
  | 0, _, _ => some none
  | n + 1, i, idx =>
    match itemIdx idx with
    | none => none
    | some k =>
      if q.items k = reg then some (some (i + 1))
      else searchLoop q reg n (i + 1) (Int.tmod (idx + 1) QUEUE_CAP)

/-- Simple search for a vehicle in parking and queue. The lot and the queue are passed
through: the function writes to neither. -/
def searchVehicle (p : ParkingLot) (q : Queue) (reg : Reg) :
    Option (ParkingLot × Queue × List Event) :=
  match isCarParked p reg with
  | none => none
  | some (some (rr, cc)) =>
    match slotAt p rr cc with
    | none => none
    | some s => some (p, q, [Event.foundInSlot rr cc s.entry_time])
  | some none =>
    match searchLoop q reg q.size.toNat 0 q.front with
    | none => none
    | some (some pos) => some (p, q, [Event.foundInQueue pos])
    | some none => some (p, q, [Event.notFoundAnywhere])

/-- One `fwrite` of `state.dat`: an `int`, the block of `MAX_ROWS*MAX_COLS` slots in
memory (row-major) order, or the block of `QUEUE_CAP` queue items. -/
inductive Chunk where
  | int (v : Int)
  | slots (l : List Slot)
  | items (l : List Reg)

/-- The slots array in memory order: index `k` is `slots[k / MAX_COLS][k % MAX_COLS]`. -/
def slotsBlock (p : ParkingLot) : List Slot :=
  List.ofFn (fun k : Fin (MAX_ROWS * MAX_COLS) =>
    p.slots ⟨k.val / MAX_COLS, by
      have hk : k.val < 20 := k.isLt
      show k.val / 5 < 4
      omega⟩ ⟨k.val % MAX_COLS, by
      show k.val % 5 < 5
      omega⟩)

/-- Save current state (parking lot + queue): the content written to `state.dat` when
the file can be opened. -/
def saveState (p : ParkingLot) (q : Queue) : List Chunk :=
  [Chunk.int p.rows, Chunk.int p.cols, Chunk.slots (slotsBlock p),
   Chunk.int q.front, Chunk.int q.rear, Chunk.int q.size, Chunk.items (List.ofFn q.items)]

/-- One `fread(&x, sizeof(int), 1, f)`. -/
def freadInt : List Chunk → Option (Int × List Chunk)
  | Chunk.int v :: rest => some (v, rest)
  | _ => none

/-- The call `fread(p->slots, sizeof(Slot), MAX_ROWS*MAX_COLS, f)`. -/
def freadSlots : List Chunk → Option ((Fin MAX_ROWS → Fin MAX_COLS → Slot) × List Chunk)
  | Chunk.slots l :: rest =>
    if h : l.length = MAX_ROWS * MAX_COLS then
      some (fun i j => l.get ⟨i.val * MAX_COLS + j.val, by
        have hi : i.val < 4 := i.isLt
        have hj : j.val < 5 := j.isLt
        rw [h]
        show i.val * 5 + j.val < 4 * 5
        omega⟩, rest)
    else none
  | _ => none

/-- The call `fread(q->items, sizeof(q->items), 1, f)`. -/
def freadItems : List Chunk → Option ((Fin QUEUE_CAP → Reg) × List Chunk)
  | Chunk.items l :: rest =>
    if h : l.length = QUEUE_CAP then
      some (fun k => l.get ⟨k.val, by rw [h]; exact k.isLt⟩, rest)
    else none
  | _ => none

/-- Load state if exists. `file = none`: `state.dat` cannot be opened, return value 0.
Otherwise the seven `fread` calls in order, return value 1. A file whose content does
not have the layout written by `saveState` is outside the model (`none`). -/
def loadState (file : Option (List Chunk)) (p : ParkingLot) (q : Queue) :
    Option (ParkingLot × Queue × Int) :=
  match file with
  | none => some (p, q, 0)
  | some f0 =>
    match freadInt f0 with
    | none => none
    | some (rows, f1) =>
      match freadInt f1 with
      | none => none
      | some (cols, f2) =>
        match freadSlots f2 with
        | none => none
        | some (sl, f3) =>
          match freadInt f3 with
          | none => none
          | some (front, f4) =>
            match freadInt f4 with
            | none => none
            | some (rear, f5) =>
              match freadInt f5 with
              | none => none
              | some (size, f6) =>
                match freadItems f6 with
                | none => none
                | some (it, _) =>
                  some ({ rows := rows, cols := cols, slots := sl },
                        { items := it, front := front, rear := rear, size := size }, 1)

/-! ## Reachable states -/

/-- State at the start of `main` when no state file exists: `initQueue` and
`initParkingLot` with `MAX_ROWS`, `MAX_COLS`, applied to uninitialised memory. -/
def IsInitial (p : ParkingLot) (q : Queue) : Prop :=
  ∃ p0 q0, initParkingLot p0 MAX_ROWS MAX_COLS = some p ∧ q = initQueue q0

/-- States reachable from the initial state by `carEntry` and `carExit` calls; the
registration read by `scanf("%31s")` has at most 31 characters. -/
inductive Reachable : ParkingLot → Queue → Prop where
  | init (p : ParkingLot) (q : Queue) (h : IsInitial p q) : Reachable p q
  | entry (p p1 : ParkingLot) (q q1 : Queue) (reg : Reg) (now : Int) (ev : List Event)
      (hr : Reachable p q) (hlen : reg.length ≤ 31)
      (h : carEntry p q reg now = some (p1, q1, ev)) : Reachable p1 q1
  | exit (p p1 : ParkingLot) (q q1 : Queue) (reg : Reg) (exit_time assign_time : Int)
      (ev : List Event) (hr : Reachable p q) (hlen : reg.length ≤ 31)
      (h : carExit p q reg exit_time assign_time = some (p1, q1, ev)) : Reachable p1 q1

/-- Number of occupied slots of the array. -/
def occupiedCount (p : ParkingLot) : Nat :=
  (Finset.univ.filter
    (fun ij : Fin MAX_ROWS × Fin MAX_COLS => (p.slots ij.1 ij.2).occupied ≠ 0)).card

/-- Every unoccupied slot has the empty registration and entry time 0. -/
def SlotInv (p : ParkingLot) : Prop :=
  ∀ i j s, slotAt p i j = some s → s.occupied = 0 → s.reg = [] ∧ s.entry_time = 0

/-- One menu action: car entry (registration, clock) or car exit (registration, the two
clock values). -/
inductive Op where
  | enter (reg : Reg) (now : Int)
  | leave (reg : Reg) (exit_time assign_time : Int)

/-- The registration typed for an action fits the `scanf("%31s")` buffer. -/
def Op.Fits : Op → Prop
  | Op.enter reg _ => reg.length ≤ 31
  | Op.leave reg _ _ => reg.length ≤ 31

instance (op : Op) : Decidable op.Fits := by
  cases op <;> unfold Op.Fits <;> infer_instance

/-- Run a sequence of menu actions. -/
def runTrace (p : ParkingLot) (q : Queue) : List Op → Option (ParkingLot × Queue)
  | [] => some (p, q)
  | Op.enter reg now :: ops =>
    match carEntry p q reg now with
    | none => none
    | some (p1, q1, _) => runTrace p1 q1 ops
  | Op.leave reg t1 t2 :: ops =>
    match carExit p q reg t1 t2 with
    | none => none
    | some (p1, q1, _) => runTrace p1 q1 ops

/-- Lot `p1` is lot `p` with slot `(r, c)` replaced by `s`. -/
def SlotWrite (p p1 : ParkingLot) (r c : Nat) (s : Slot) : Prop :=
  p1.rows = p.rows ∧ p1.cols = p.cols ∧ slotAt p1 r c = some s ∧
    ∀ a b, a ≠ r ∨ b ≠ c → slotAt p1 a b = slotAt p a b

/-- Queue `q2` is queue `q` with its front item removed. -/
def Dequeued (q q2 : Queue) : Prop :=
  q2.items = q.items ∧ q2.front = (q.front + 1) % 50 ∧ q2.rear = q.rear ∧
    q2.size = q.size - 1 ∧ q.contents = q.at q.front :: q2.contents

/-- The empty 4×5 lot. -/
def lotInit : ParkingLot := ⟨4, 5, fun _ _ => ⟨0, [], 0⟩⟩

/-- What every reachable state satisfies: full-size grid, consistent ring buffer, cleared
free slots, a non-empty queue only beside a full lot, queued registrations of at most
31 characters. -/
def Inv (p : ParkingLot) (q : Queue) : Prop :=
  p.rows = 4 ∧ p.cols = 5 ∧ q.Valid ∧ SlotInv p ∧
    (q.size ≠ 0 → ∀ i j, InGrid p i j → Occupied p i j) ∧
    (∀ x ∈ q.contents, x.length ≤ 31)

/-- A queue holding the two registrations "Q1", "Q2". -/
def queueTwo : Queue :=
  ⟨fun k => if k.val = 0 then "Q1".toList else if k.val = 1 then "Q2".toList else [], 0, 1, 2⟩

/-- Twenty entries "V1" .. "V20" at times 1000 .. 1019: they fill the lot. -/
def fillOps : List Op :=
  (List.range 20).map (fun k => Op.enter ('V' :: Nat.toDigits 10 (k + 1)) (1000 + (k : Int)))

/-- The lot is filled, then "KA99" is entered and has to wait. -/
def queuedOps : List Op := fillOps ++ [Op.enter "KA99".toList 2000]

/-- As `queuedOps`, then "KA99" is entered a second time. -/
def dupOps : List Op := queuedOps ++ [Op.enter "KA99".toList 2001]

/-- As `dupOps`, then "V1" leaves at time 3000. -/
def dupExitOps : List Op := dupOps ++ [Op.leave "V1".toList 3000 3000]

/-- As `dupExitOps`, then "V2" leaves at time 3100. -/
def dupExit2Ops : List Op := dupExitOps ++ [Op.leave "V2".toList 3100 3100]

/-- As `dupExit2Ops`, then "KA77" is entered and has to wait: the lot is full with
"KA99" in two slots. -/
def dupFullOps : List Op := dupExit2Ops ++ [Op.enter "KA77".toList 4000]

/-- The state after running `ops` from the empty lot and empty queue (the initial state
itself if a call does not complete). -/
def traceState (ops : List Op) : ParkingLot × Queue :=
  (runTrace lotInit (initQueue queueEmpty) ops).getD (lotInit, initQueue queueEmpty)

/-! # Theorems -/

/-! ## The row-major scan -/

theorem slotAt_eq (p : ParkingLot) {i j : Nat} (hi : i < MAX_ROWS) (hj : j < MAX_COLS) :
    slotAt p i j = some (p.slots ⟨i, hi⟩ ⟨j, hj⟩) := by
  simp [slotAt, hi, hj]

theorem scanRow_spec (p : ParkingLot) (test : Slot → Bool) (i : Nat) (hi : i < MAX_ROWS) :
    ∀ n j, j + n ≤ MAX_COLS →
      (∃ c, scanRow p test i n j = some (some (i, c)) ∧ j ≤ c ∧ c < j + n ∧
          SlotSat p test i c ∧ ∀ c', j ≤ c' → c' < c → ¬ SlotSat p test i c') ∨
      (scanRow p test i n j = some none ∧
          ∀ c', j ≤ c' → c' < j + n → ¬ SlotSat p test i c') := by
  intro n
  induction n with
  | zero =>
    intro j _
    right
    refine ⟨rfl, ?_⟩
    intro c' h1 h2
    omega
  | succ n ih =>
    intro j hj
    have hjc : j < MAX_COLS := by omega
    have hs := slotAt_eq p hi hjc
    by_cases ht : test (p.slots ⟨i, hi⟩ ⟨j, hjc⟩) = true
    · left
      refine ⟨j, ?_, le_refl j, by omega, ⟨_, hs, ht⟩, ?_⟩
      · simp [scanRow, hs, ht]
      · intro c' h1 h2
        omega
    · have hstep : scanRow p test i (n + 1) j = scanRow p test i n (j + 1) := by
        simp [scanRow, hs, ht]
      have hnot : ¬ SlotSat p test i j := by
        rintro ⟨s, h1, h2⟩
        rw [hs] at h1
        cases h1
        exact ht h2
      rcases ih (j + 1) (by omega) with ⟨c, h1, h2, h3, h4, h5⟩ | ⟨h1, h2⟩
      · left
        refine ⟨c, by rw [hstep]; exact h1, by omega, by omega, h4, ?_⟩
        intro c' hc1 hc2
        by_cases hcj : c' = j
        · subst hcj
          exact hnot
        · exact h5 c' (by omega) hc2
      · right
        refine ⟨by rw [hstep]; exact h1, ?_⟩
        intro c' hc1 hc2
        by_cases hcj : c' = j
        · subst hcj
          exact hnot
        · exact h2 c' (by omega) (by omega)

theorem scanLot_spec (p : ParkingLot) (test : Slot → Bool) (hc : p.cols ≤ MAX_COLS) :
    ∀ m i, i + m ≤ MAX_ROWS →
      (∃ r c, scanLot p test m i = some (some (r, c)) ∧ i ≤ r ∧ r < i + m ∧
          c < p.cols.toNat ∧ SlotSat p test r c ∧
          (∀ c', c' < c → ¬ SlotSat p test r c') ∧
          ∀ r', i ≤ r' → r' < r → ∀ c', c' < p.cols.toNat → ¬ SlotSat p test r' c') ∨
      (scanLot p test m i = some none ∧
          ∀ r', i ≤ r' → r' < i + m → ∀ c', c' < p.cols.toNat → ¬ SlotSat p test r' c') := by
  intro m
  induction m with
  | zero =>
    intro i _
    right
    refine ⟨rfl, ?_⟩
    intro r' h1 h2
    omega
  | succ m ih =>
    intro i hi
    have hcn : 0 + p.cols.toNat ≤ MAX_COLS := by
      have : p.cols ≤ 5 := hc
      omega
    rcases scanRow_spec p test i (by omega) p.cols.toNat 0 hcn with
      ⟨c, h1, _, h3, h4, h5⟩ | ⟨h1, h2⟩
    · left
      refine ⟨i, c, by simp [scanLot, h1], le_refl i, by omega, by omega, h4, ?_, ?_⟩
      · intro c' hc'
        exact h5 c' (Nat.zero_le _) hc'
      · intro r' hr1 hr2
        omega
    · have hstep : scanLot p test (m + 1) i = scanLot p test m (i + 1) := by
        simp [scanLot, h1]
      rcases ih (i + 1) (by omega) with ⟨r, c, g1, g2, g3, g4, g5, g6, g7⟩ | ⟨g1, g2⟩
      · left
        refine ⟨r, c, by rw [hstep]; exact g1, by omega, by omega, g4, g5, g6, ?_⟩
        intro r' hr1 hr2 c' hc'
        by_cases hri : r' = i
        · subst hri
          exact h2 c' (Nat.zero_le _) (by omega)
        · exact g7 r' (by omega) hr2 c' hc'
      · right
        refine ⟨by rw [hstep]; exact g1, ?_⟩
        intro r' hr1 hr2 c' hc'
        by_cases hri : r' = i
        · subst hri
          exact h2 c' (Nat.zero_le _) (by omega)
        · exact g2 r' (by omega) (by omega) c' hc'

/-- On a lot whose dimensions fit the array the scan terminates normally, and its
result is the first grid position passing the test, or "none" if no position passes. -/
theorem scanSlots_spec (p : ParkingLot) (test : Slot → Bool) (hp : p.Valid) :
    (∃ r c, scanSlots p test = some (some (r, c)) ∧ FirstSat p test r c) ∨
    (scanSlots p test = some none ∧ ∀ i j, InGrid p i j → ¬ SlotSat p test i j) := by
  obtain ⟨hr, hc⟩ := hp
  have hrn : 0 + p.rows.toNat ≤ MAX_ROWS := by
    have : p.rows ≤ 4 := hr
    omega
  rcases scanLot_spec p test hc p.rows.toNat 0 hrn with
    ⟨r, c, g1, _, g3, g4, g5, g6, g7⟩ | ⟨g1, g2⟩
  · left
    refine ⟨r, c, g1, ⟨by omega, by omega⟩, g5, ?_⟩
    rintro i j ⟨_, hj⟩ hb
    rcases hb with hb | ⟨rfl, hb⟩
    · exact g7 i (Nat.zero_le _) hb j (by omega)
    · exact g6 j hb
  · right
    refine ⟨g1, ?_⟩
    rintro i j ⟨hi, hj⟩
    exact g2 i (Nat.zero_le _) (by omega) j (by omega)

theorem FirstSat_unique {p : ParkingLot} {test : Slot → Bool} {r c r' c' : Nat}
    (h : FirstSat p test r c) (h' : FirstSat p test r' c') : r = r' ∧ c = c' := by
  obtain ⟨g1, g2, g3⟩ := h
  obtain ⟨k1, k2, k3⟩ := h'
  by_contra hne
  have hcases : Before r c r' c' ∨ Before r' c' r c := by
    unfold Before
    omega
  rcases hcases with hb | hb
  · exact k3 r c g1 hb g2
  · exact g3 r' c' k1 hb k2

theorem scanSlots_some_iff (p : ParkingLot) (test : Slot → Bool) (hp : p.Valid) (r c : Nat) :
    scanSlots p test = some (some (r, c)) ↔ FirstSat p test r c := by
  rcases scanSlots_spec p test hp with ⟨r0, c0, h1, h2⟩ | ⟨h1, h2⟩
  · constructor
    · intro h
      rw [h1] at h
      cases h
      exact h2
    · intro h
      obtain ⟨e1, e2⟩ := FirstSat_unique h2 h
      subst e1 e2
      exact h1
  · constructor
    · intro h
      rw [h1] at h
      cases h
    · intro h
      exact absurd h.2.1 (h2 r c h.1)

theorem scanSlots_none_iff (p : ParkingLot) (test : Slot → Bool) (hp : p.Valid) :
    scanSlots p test = some none ↔ ∀ i j, InGrid p i j → ¬ SlotSat p test i j := by
  rcases scanSlots_spec p test hp with ⟨r0, c0, h1, h2⟩ | ⟨h1, h2⟩
  · constructor
    · intro h
      rw [h1] at h
      cases h
    · intro h
      exact absurd h2.2.1 (h r0 c0 h2.1)
  · exact ⟨fun _ => h2, fun _ => h1⟩

theorem slotAt_inGrid {p : ParkingLot} (hp : p.Valid) {i j : Nat} (h : InGrid p i j) :
    ∃ s, slotAt p i j = some s := by
  obtain ⟨hr, hc⟩ := hp
  obtain ⟨hi, hj⟩ := h
  have h4 : p.rows ≤ 4 := hr
  have h5 : p.cols ≤ 5 := hc
  exact ⟨_, slotAt_eq p (by omega) (by omega)⟩

theorem slotSat_free (p : ParkingLot) (i j : Nat) :
    SlotSat p (fun s => decide (s.occupied = 0)) i j ↔ Free p i j := by
  simp [SlotSat, Free]

theorem slotSat_holds (p : ParkingLot) (id : Reg) (i j : Nat) :
    SlotSat p (fun s => decide (s.occupied ≠ 0) && decide (s.reg = id)) i j ↔
      Holds p id i j := by
  simp [SlotSat, Holds]

theorem not_free_iff_occupied {p : ParkingLot} (hp : p.Valid) {i j : Nat}
    (h : InGrid p i j) : ¬ Free p i j ↔ Occupied p i j := by
  obtain ⟨s, hs⟩ := slotAt_inGrid hp h
  constructor
  · intro hn
    exact ⟨s, hs, fun h0 => hn ⟨s, hs, h0⟩⟩
  · rintro ⟨s1, h1, h2⟩ ⟨s2, h3, h4⟩
    rw [h1] at h3
    cases h3
    exact h2 h4

theorem findNearestFreeSlot_some_iff {p : ParkingLot} (hp : p.Valid) (r c : Nat) :
    findNearestFreeSlot p = some (some (r, c)) ↔ FirstFree p r c := by
  unfold findNearestFreeSlot
  rw [scanSlots_some_iff p _ hp]
  unfold FirstSat FirstFree
  rw [slotSat_free]
  constructor
  · rintro ⟨h1, h2, h3⟩
    refine ⟨h1, h2, fun i j hg hb => (not_free_iff_occupied hp hg).1 ?_⟩
    rw [← slotSat_free]
    exact h3 i j hg hb
  · rintro ⟨h1, h2, h3⟩
    refine ⟨h1, h2, fun i j hg hb => ?_⟩
    rw [slotSat_free]
    exact (not_free_iff_occupied hp hg).2 (h3 i j hg hb)

theorem findNearestFreeSlot_none_iff {p : ParkingLot} (hp : p.Valid) :
    findNearestFreeSlot p = some none ↔ ∀ i j, InGrid p i j → Occupied p i j := by
  unfold findNearestFreeSlot
  rw [scanSlots_none_iff p _ hp]
  constructor
  · intro h i j hg
    refine (not_free_iff_occupied hp hg).1 ?_
    rw [← slotSat_free]
    exact h i j hg
  · intro h i j hg
    rw [slotSat_free]
    exact (not_free_iff_occupied hp hg).2 (h i j hg)

theorem isCarParked_some_iff {p : ParkingLot} (hp : p.Valid) (id : Reg) (r c : Nat) :
    isCarParked p id = some (some (r, c)) ↔ ParkedAt p id r c := by
  unfold isCarParked
  rw [scanSlots_some_iff p _ hp]
  unfold FirstSat ParkedAt
  simp only [slotSat_holds]

theorem isCarParked_none_iff {p : ParkingLot} (hp : p.Valid) (id : Reg) :
    isCarParked p id = some none ↔ ∀ i j, InGrid p i j → ¬ Holds p id i j := by
  unfold isCarParked
  rw [scanSlots_none_iff p _ hp]
  simp only [slotSat_holds]

/-- A lookup on a lot whose dimensions fit the array either finds the first slot
holding `id` or reports that no grid slot holds it. -/
theorem isCarParked_cases {p : ParkingLot} (hp : p.Valid) (id : Reg) :
    (∃ r c, isCarParked p id = some (some (r, c)) ∧ ParkedAt p id r c) ∨
    (isCarParked p id = some none ∧ ∀ i j, InGrid p i j → ¬ Holds p id i j) := by
  rcases scanSlots_spec p (fun s => decide (s.occupied ≠ 0) && decide (s.reg = id)) hp with
    ⟨r, c, h1, _⟩ | ⟨h1, _⟩
  · exact Or.inl ⟨r, c, h1, (isCarParked_some_iff hp id r c).1 h1⟩
  · exact Or.inr ⟨h1, (isCarParked_none_iff hp id).1 h1⟩

theorem findNearestFreeSlot_cases {p : ParkingLot} (hp : p.Valid) :
    (∃ r c, findNearestFreeSlot p = some (some (r, c)) ∧ FirstFree p r c) ∨
    (findNearestFreeSlot p = some none ∧ ∀ i j, InGrid p i j → Occupied p i j) := by
  rcases scanSlots_spec p (fun s => decide (s.occupied = 0)) hp with
    ⟨r, c, h1, _⟩ | ⟨h1, _⟩
  · exact Or.inl ⟨r, c, h1, (findNearestFreeSlot_some_iff hp r c).1 h1⟩
  · exact Or.inr ⟨h1, (findNearestFreeSlot_none_iff hp).1 h1⟩

/-! ## Writing one slot -/

theorem setSlot_spec (p : ParkingLot) {i j : Nat} (s : Slot)
    (hi : i < MAX_ROWS) (hj : j < MAX_COLS) :
    ∃ p1, setSlot p i j s = some p1 ∧ p1.rows = p.rows ∧ p1.cols = p.cols ∧
      slotAt p1 i j = some s ∧
      ∀ a b, a ≠ i ∨ b ≠ j → slotAt p1 a b = slotAt p a b := by
  refine ⟨{ rows := p.rows, cols := p.cols,
             slots := Function.update p.slots ⟨i, hi⟩
                        (Function.update (p.slots ⟨i, hi⟩) ⟨j, hj⟩ s) }, ?_, rfl, rfl, ?_, ?_⟩
  · simp only [setSlot, hi, hj, and_self, dite_true]
  · simp [slotAt, hi, hj]
  · intro a b hab
    unfold slotAt
    by_cases hin : a < MAX_ROWS ∧ b < MAX_COLS
    · simp only [hin, and_self, dite_true, Option.some.injEq]
      by_cases hai : a = i
      · subst hai
        have hbj : b ≠ j := by
          rcases hab with h | h
          · exact absurd rfl h
          · exact h
        have : (⟨b, hin.2⟩ : Fin MAX_COLS) ≠ ⟨j, hj⟩ := by
          intro h
          exact hbj (Fin.mk.inj_iff.1 h)
        simp [Function.update_noteq this]
      · have : (⟨a, hin.1⟩ : Fin MAX_ROWS) ≠ ⟨i, hi⟩ := by
          intro h
          exact hai (Fin.mk.inj_iff.1 h)
        simp [Function.update_noteq this]
    · simp [hin]

theorem slotAt_bounds {p : ParkingLot} {i j : Nat} {s : Slot} (h : slotAt p i j = some s) :
    i < MAX_ROWS ∧ j < MAX_COLS := by
  unfold slotAt at h
  by_cases hin : i < MAX_ROWS ∧ j < MAX_COLS
  · exact hin
  · simp [hin] at h

/-- Two lots with the same dimensions and the same slot contents are equal. -/
theorem ParkingLot.ext_slotAt {p p1 : ParkingLot} (hr : p1.rows = p.rows)
    (hc : p1.cols = p.cols) (h : ∀ a b, slotAt p1 a b = slotAt p a b) : p1 = p := by
  cases p with
  | mk r c sl =>
    cases p1 with
    | mk r1 c1 sl1 =>
      simp only at hr hc
      subst hr hc
      congr
      funext a b
      have := h a.val b.val
      simpa [slotAt] using this

/-! ## Claims about entry -/

/-- C1: on a lot with `rows ≤ 4` and `cols ≤ 5`, `findNearestFreeSlot` returns "found"
with a position `(r, c)` exactly when some slot of the grid is unoccupied; in that case
slot `(r, c)` is unoccupied and every grid slot preceding it in row-major order is
occupied. It returns "none" exactly when every grid slot is occupied. -/
theorem findNearestFreeSlot_first_free (p : ParkingLot)
    (hr : p.rows ≤ 4) (hc : p.cols ≤ 5) :
    (∀ r c, findNearestFreeSlot p = some (some (r, c)) →
        InGrid p r c ∧ Free p r c ∧
          ∀ i j, InGrid p i j → Before i j r c → Occupied p i j) ∧
    ((∃ r c, findNearestFreeSlot p = some (some (r, c))) ↔
        ∃ i j, InGrid p i j ∧ Free p i j) ∧
    (findNearestFreeSlot p = some none ↔ ∀ i j, InGrid p i j → Occupied p i j) := by
  have hp : p.Valid := ⟨hr, hc⟩
  refine ⟨fun r c h => (findNearestFreeSlot_some_iff hp r c).1 h, ?_,
    findNearestFreeSlot_none_iff hp⟩
  constructor
  · rintro ⟨r, c, h⟩
    have hf := (findNearestFreeSlot_some_iff hp r c).1 h
    exact ⟨r, c, hf.1, hf.2.1⟩
  · rintro ⟨i, j, hg, hfree⟩
    rcases findNearestFreeSlot_cases hp with ⟨r, c, h1, _⟩ | ⟨_, h2⟩
    · exact ⟨r, c, h1⟩
    · exact absurd hfree ((not_free_iff_occupied hp hg).2 (h2 i j hg))

theorem findNearestFreeSlot_first_free_witness :
    findNearestFreeSlot lotTwo = some (some (0, 2)) ∧
      (InGrid lotTwo 0 2 ∧ Free lotTwo 0 2 ∧
        ∀ i j, InGrid lotTwo i j → Before i j 0 2 → Occupied lotTwo i j) :=
  ⟨by decide,
    (findNearestFreeSlot_first_free lotTwo (by decide) (by decide)).1 0 2 (by decide)⟩

/-- C2: if `id` (at most 31 characters) is in no occupied slot and the lot has a free
slot, `carEntry` writes `occupied = 1`, `reg = id`, `entry_time = now` into the first
free slot in row-major order, leaves every other slot, the dimensions and the waiting
queue unchanged, and reports the allocation. -/
theorem carEntry_parks_first_free (p : ParkingLot) (q : Queue) (id : Reg) (now : Int)
    (hp : p.Valid) (hlen : id.length ≤ 31)
    (hnot : ∀ i j, InGrid p i j → ¬ Holds p id i j)
    (hfree : ∃ i j, InGrid p i j ∧ Free p i j) :
    ∃ r c p1, carEntry p q id now = some (p1, q, [Event.allocated r c id]) ∧
      FirstFree p r c ∧
      slotAt p1 r c = some ⟨1, id, now⟩ ∧
      (∀ a b, a ≠ r ∨ b ≠ c → slotAt p1 a b = slotAt p a b) ∧
      p1.rows = p.rows ∧ p1.cols = p.cols := by
  have hpark : isCarParked p id = some none := (isCarParked_none_iff hp id).2 hnot
  rcases findNearestFreeSlot_cases hp with ⟨r, c, h1, h2⟩ | ⟨_, h2⟩
  · obtain ⟨s, hs, _⟩ := h2.2.1
    obtain ⟨hi, hj⟩ := slotAt_bounds hs
    obtain ⟨p1, g1, g2, g3, g4, g5⟩ :=
      setSlot_spec p ⟨1, strncpy id (MAX_REG_LEN - 1), now⟩ hi hj
    have hid : strncpy id (MAX_REG_LEN - 1) = id := by
      unfold strncpy
      exact List.take_of_length_le hlen
    have hid31 : strncpy id 31 = id := hid
    rw [hid] at g1 g4
    refine ⟨r, c, p1, ?_, h2, g4, g5, g2, g3⟩
    simp [carEntry, hpark, h1, hid31, g1]
  · obtain ⟨i, j, hg, hf⟩ := hfree
    exact absurd hf ((not_free_iff_occupied hp hg).2 (h2 i j hg))

theorem carEntry_parks_first_free_witness :
    ∃ r c p1, carEntry lotTwo queueEmpty "KA03".toList 300 =
        some (p1, queueEmpty, [Event.allocated r c "KA03".toList]) ∧
      FirstFree lotTwo r c ∧
      slotAt p1 r c = some ⟨1, "KA03".toList, 300⟩ ∧
      (∀ a b, a ≠ r ∨ b ≠ c → slotAt p1 a b = slotAt lotTwo a b) ∧
      p1.rows = lotTwo.rows ∧ p1.cols = lotTwo.cols :=
  carEntry_parks_first_free lotTwo queueEmpty "KA03".toList 300
    ⟨by decide, by decide⟩ (by decide)
    ((isCarParked_none_iff ⟨by decide, by decide⟩ _).1 (by decide))
    ⟨0, 2, ⟨by decide, by decide⟩, ⟨_, rfl, by decide⟩⟩

/-- C3: if `id` is stored in an occupied slot of the lot, `carEntry` rejects it
("already parked") and leaves the lot and the waiting queue exactly unchanged. -/
theorem carEntry_already_parked (p : ParkingLot) (q : Queue) (id : Reg) (now : Int)
    (hp : p.Valid) (h : ∃ i j, InGrid p i j ∧ Holds p id i j) :
    carEntry p q id now = some (p, q, [Event.alreadyParked]) := by
  rcases isCarParked_cases hp id with ⟨r, c, h1, _⟩ | ⟨_, h2⟩
  · simp [carEntry, h1]
  · obtain ⟨i, j, hg, hh⟩ := h
    exact absurd hh (h2 i j hg)

theorem carEntry_already_parked_witness :
    carEntry lotTwo queueEmpty "KA02".toList 300 =
      some (lotTwo, queueEmpty, [Event.alreadyParked]) :=
  carEntry_already_parked lotTwo queueEmpty "KA02".toList 300 ⟨by decide, by decide⟩
    ⟨0, 1, ⟨by decide, by decide⟩, ⟨_, rfl, by decide, by decide⟩⟩

/-! ## The circular buffer -/

theorem itemIdx_eq {i : Int} (h0 : 0 ≤ i) (h1 : i < 50) : itemIdx i = some (ringIdx i) := by
  have h : 0 ≤ i ∧ i < ((QUEUE_CAP : Nat) : Int) := ⟨h0, by simpa using h1⟩
  simp only [itemIdx, h, and_self, dite_true, ringIdx, Option.some.injEq, Fin.mk.injEq]
  omega

theorem tmod_succ {i : Int} (h : -1 ≤ i) :
    Int.tmod (i + 1) ((QUEUE_CAP : Nat) : Int) = (i + 1) % 50 := by
  rw [Int.tmod_eq_emod (by omega) (by simp)]
  rfl

theorem ringIdx_congr {i j : Int} (h : i % 50 = j % 50) : ringIdx i = ringIdx j := by
  unfold ringIdx
  simp only [Fin.mk.injEq]
  omega

theorem ringIdx_ne {i j : Int} (h : i % 50 ≠ j % 50) : ringIdx i ≠ ringIdx j := by
  unfold ringIdx
  simp only [ne_eq, Fin.mk.injEq]
  omega

theorem Queue.at_congr (q : Queue) {i j : Int} (h : i % 50 = j % 50) : q.at i = q.at j := by
  unfold Queue.at
  rw [ringIdx_congr h]

theorem displayLoop_eq (q : Queue) :
    ∀ n idx, 0 ≤ idx → idx < 50 →
      displayLoop q n idx =
        some ((List.range n).map (fun (k : Nat) => q.at (idx + (k : Int)))) := by
  intro n
  induction n with
  | zero =>
    intro idx _ _
    rfl
  | succ n ih =>
    intro idx h0 h1
    have hnext := ih ((idx + 1) % 50) (by omega) (by omega)
    rw [displayLoop, itemIdx_eq h0 h1, tmod_succ (by omega)]
    simp only [hnext]
    rw [List.range_succ_eq_map, List.map_cons, List.map_map]
    congr 2
    · exact q.at_congr (by simp)
    · apply List.map_congr_left
      intro k _
      apply q.at_congr
      simp only [Function.comp, Nat.succ_eq_add_one, Nat.cast_add, Nat.cast_one]
      omega

theorem displayQueue_eq (q : Queue) (h0 : 0 ≤ q.front) (h1 : q.front < 50) :
    displayQueue q = some q.contents := by
  unfold displayQueue Queue.contents
  by_cases hs : q.size = 0
  · simp [isQueueEmpty, hs]
  · simp only [isQueueEmpty, hs, decide_False, Bool.false_eq_true, if_false]
    exact displayLoop_eq q _ _ h0 h1

theorem Queue.contents_length (q : Queue) : q.contents.length = q.size.toNat := by
  simp [Queue.contents]

/-- Effect of `enqueue` on a consistent queue that is not full. -/
theorem enqueue_spec (q : Queue) (reg : Reg) (hq : q.Valid) (hs : q.size < 50) :
    ∃ q1, enqueue q reg = some (q1, []) ∧ q1.Valid ∧ q1.front = q.front ∧
      q1.size = q.size + 1 ∧ q1.contents = q.contents ++ [strncpy reg 31] := by
  obtain ⟨f0, f1, s0, s1, r0, r1, hring⟩ := hq
  have hfull : isQueueFull q = false := by
    simp only [isQueueFull, decide_eq_false_iff_not]
    intro h
    have : q.size = 50 := by simpa using h
    omega
  have hr0 : 0 ≤ (q.rear + 1) % 50 := by omega
  have hr1 : (q.rear + 1) % 50 < 50 := by omega
  refine ⟨{ items := Function.update q.items (ringIdx ((q.rear + 1) % 50)) (strncpy reg 31),
            front := q.front, rear := (q.rear + 1) % 50, size := q.size + 1 },
          ?_, ?_, rfl, rfl, ?_⟩
  · unfold enqueue
    simp only [hfull, Bool.false_eq_true, if_false, tmod_succ r0, itemIdx_eq hr0 hr1]
    rfl
  · refine ⟨f0, f1, ?_, ?_, ?_, ?_, ?_⟩ <;> simp only <;> omega
  · unfold Queue.contents
    simp only
    have hn : (q.size + 1).toNat = q.size.toNat + 1 := by omega
    rw [hn, List.range_succ, List.map_append]
    congr 1
    · apply List.map_congr_left
      intro k hk
      have hk' : k < q.size.toNat := List.mem_range.1 hk
      unfold Queue.at
      simp only
      rw [Function.update_noteq]
      apply ringIdx_ne
      omega
    · simp only [List.map_cons, List.map_nil, List.cons.injEq, and_true]
      unfold Queue.at
      simp only
      have hidx : ringIdx (q.front + ((q.size.toNat : Nat) : Int)) =
          ringIdx ((q.rear + 1) % 50) := by
        apply ringIdx_congr
        omega
      rw [hidx, Function.update_same]

/-- Effect of `enqueue` on a full queue. -/
theorem enqueue_full (q : Queue) (reg : Reg) (hs : q.size = 50) :
    enqueue q reg = some (q, [Event.queueFull reg]) := by
  simp [enqueue, isQueueFull, hs]

/-- Effect of `dequeue` on a non-empty queue whose `front` is in range. -/
theorem dequeue_spec (q : Queue) (f0 : 0 ≤ q.front) (f1 : q.front < 50) (hs : 0 < q.size) :
    ∃ q1, dequeue q = some (q1, strncpy (q.at q.front) 31) ∧
      q1.items = q.items ∧ q1.front = (q.front + 1) % 50 ∧ q1.rear = q.rear ∧
      q1.size = q.size - 1 ∧ q.contents = q.at q.front :: q1.contents := by
  have hne : isQueueEmpty q = false := by
    simp only [isQueueEmpty, decide_eq_false_iff_not]
    omega
  refine ⟨{ items := q.items, front := (q.front + 1) % 50, rear := q.rear,
            size := q.size - 1 }, ?_, rfl, rfl, rfl, rfl, ?_⟩
  · unfold dequeue
    simp only [hne, Bool.false_eq_true, if_false, itemIdx_eq f0 f1,
      tmod_succ (by omega : -1 ≤ q.front)]
    rfl
  · unfold Queue.contents
    simp only
    have hn : q.size.toNat = (q.size - 1).toNat + 1 := by omega
    rw [hn, List.range_succ_eq_map, List.map_cons, List.map_map]
    congr 1
    · exact Queue.at_congr _ (by simp)
    · apply List.map_congr_left
      intro k _
      unfold Queue.at
      simp only [Function.comp, Nat.succ_eq_add_one, Nat.cast_add, Nat.cast_one]
      rw [ringIdx_congr]
      omega

theorem dequeue_valid {q q1 : Queue} (hq : q.Valid) (hs : 0 < q.size)
    (h1 : q1.front = (q.front + 1) % 50) (h2 : q1.rear = q.rear)
    (h3 : q1.size = q.size - 1) : q1.Valid := by
  obtain ⟨f0, f1, s0, s1, r0, r1, hring⟩ := hq
  refine ⟨?_, ?_, ?_, ?_, ?_, ?_, ?_⟩ <;> omega

/-- Effect of `dequeue` on an empty queue. -/
theorem dequeue_empty (q : Queue) (hs : q.size = 0) : dequeue q = some (q, []) := by
  simp [dequeue, isQueueEmpty, hs]

theorem Queue.contents_nil (q : Queue) (hs : q.size = 0) : q.contents = [] := by
  simp [Queue.contents, hs]

theorem initQueue_valid (q0 : Queue) : (initQueue q0).Valid := by
  simp [initQueue, Queue.Valid]

/-- Simulation step of the ring buffer against the abstract bounded FIFO. -/
theorem runOps_refines :
    ∀ (ops : List QOp) (q : Queue), q.Valid → (∀ x ∈ q.contents, x.length ≤ 31) →
      (∀ op ∈ ops, op.Fits) →
      ∃ q1 outs, runOps q ops = some (q1, outs) ∧ q1.Valid ∧
        q1.contents = (absRun q.contents ops).1 ∧
        outs = (absRun q.contents ops).2.map (fun o => o.getD []) := by
  intro ops
  induction ops with
  | nil =>
    intro q hq _ _
    exact ⟨q, [], rfl, hq, rfl, rfl⟩
  | cons op ops ih =>
    intro q hq hshort hfit
    have hfit' : ∀ op' ∈ ops, op'.Fits := fun op' h => hfit op' (List.mem_cons_of_mem _ h)
    have hlenq := q.contents_length
    obtain ⟨f0, f1, s0, s1, r0, r1, hring⟩ := id hq
    cases op with
    | enq r =>
      have hr : r.length ≤ 31 := hfit (QOp.enq r) (List.mem_cons_self _ _)
      by_cases hs : q.size < 50
      · obtain ⟨q1, e1, v1, _, _, c1⟩ := enqueue_spec q r hq hs
        have hr' : strncpy r 31 = r := List.take_of_length_le hr
        rw [hr'] at c1
        have habs : absEnqueue q.contents r = q1.contents := by
          rw [c1, absEnqueue, if_neg]
          omega
        have hshort1 : ∀ x ∈ q1.contents, x.length ≤ 31 := by
          intro x hx
          rw [c1] at hx
          rcases List.mem_append.1 hx with h | h
          · exact hshort x h
          · rw [List.mem_singleton.1 h]
            exact hr
        obtain ⟨q2, outs, g1, g2, g3, g4⟩ := ih q1 v1 hshort1 hfit'
        refine ⟨q2, outs, ?_, g2, ?_, ?_⟩
        · simp [runOps, e1, g1]
        · simp only [absRun, habs]
          exact g3
        · simp only [absRun, habs]
          exact g4
      · have hs50 : q.size = 50 := by omega
        have habs : absEnqueue q.contents r = q.contents := by
          rw [absEnqueue, if_pos]
          omega
        obtain ⟨q2, outs, g1, g2, g3, g4⟩ := ih q hq hshort hfit'
        refine ⟨q2, outs, ?_, g2, ?_, ?_⟩
        · simp [runOps, enqueue_full q r hs50, g1]
        · simp only [absRun, habs]
          exact g3
        · simp only [absRun, habs]
          exact g4
    | deq =>
      by_cases hs : q.size = 0
      · have hnil := q.contents_nil hs
        obtain ⟨q2, outs, g1, g2, g3, g4⟩ := ih q hq hshort hfit'
        refine ⟨q2, [] :: outs, ?_, g2, ?_, ?_⟩
        · simp [runOps, dequeue_empty q hs, g1]
        · simp only [absRun, hnil, absDequeue]
          rw [hnil] at g3
          exact g3
        · simp only [absRun, hnil, absDequeue, List.map_cons, Option.getD_none]
          rw [hnil] at g4
          rw [g4]
      · have hpos : 0 < q.size := by omega
        obtain ⟨q1, e1, _, d2, d3, d4, c1⟩ := dequeue_spec q f0 f1 hpos
        have v1 : q1.Valid := dequeue_valid hq hpos d2 d3 d4
        have hx : (q.at q.front).length ≤ 31 := by
          apply hshort
          rw [c1]
          exact List.mem_cons_self _ _
        have hx' : strncpy (q.at q.front) 31 = q.at q.front := List.take_of_length_le hx
        rw [hx'] at e1
        have hshort1 : ∀ x ∈ q1.contents, x.length ≤ 31 := by
          intro x hxm
          apply hshort
          rw [c1]
          exact List.mem_cons_of_mem _ hxm
        obtain ⟨q2, outs, g1, g2, g3, g4⟩ := ih q1 v1 hshort1 hfit'
        refine ⟨q2, q.at q.front :: outs, ?_, g2, ?_, ?_⟩
        · simp [runOps, e1, g1]
        · simp only [absRun, c1, absDequeue]
          exact g3
        · simp only [absRun, c1, absDequeue, List.map_cons, Option.getD_some]
          rw [g4]

/-! ## Claims about the waiting queue -/

/-- C4: with a consistent queue, a full lot and `id` (at most 31 characters) not parked:
if fewer than 50 vehicles wait, `carEntry` leaves the lot unchanged and the queue reads,
front to rear, as before followed by `id` (size + 1); if 50 wait, `carEntry` reports
"queue full" and leaves both the lot and the queue unchanged. -/
theorem carEntry_lot_full (p : ParkingLot) (q : Queue) (id : Reg) (now : Int)
    (hp : p.Valid) (hq : q.Valid) (hlen : id.length ≤ 31)
    (hfull : ∀ i j, InGrid p i j → Occupied p i j)
    (hnot : ∀ i j, InGrid p i j → ¬ Holds p id i j) :
    ∃ l, displayQueue q = some l ∧
      (q.size < 50 →
        ∃ q1, carEntry p q id now = some (p, q1, [Event.parkingFull]) ∧
          displayQueue q1 = some (l ++ [id]) ∧ q1.size = q.size + 1 ∧ q1.Valid) ∧
      (q.size = 50 →
        carEntry p q id now = some (p, q, [Event.parkingFull, Event.queueFull id])) := by
  have hpark : isCarParked p id = some none := (isCarParked_none_iff hp id).2 hnot
  have hfind : findNearestFreeSlot p = some none := (findNearestFreeSlot_none_iff hp).2 hfull
  refine ⟨q.contents, displayQueue_eq q hq.1 hq.2.1, ?_, ?_⟩
  · intro hs
    obtain ⟨q1, e1, v1, _, s1, c1⟩ := enqueue_spec q id hq hs
    have hid : strncpy id 31 = id := List.take_of_length_le hlen
    rw [hid] at c1
    refine ⟨q1, ?_, ?_, s1, v1⟩
    · simp [carEntry, hpark, hfind, e1]
    · rw [displayQueue_eq q1 v1.1 v1.2.1, c1]
  · intro hs
    simp [carEntry, hpark, hfind, enqueue_full q id hs]

theorem carEntry_lot_full_witness :
    ∃ l, displayQueue queueFifty = some l ∧
      (queueFifty.size < 50 →
        ∃ q1, carEntry lotFull queueFifty "V21".toList 2000 =
            some (lotFull, q1, [Event.parkingFull]) ∧
          displayQueue q1 = some (l ++ ["V21".toList]) ∧ q1.size = queueFifty.size + 1 ∧
          q1.Valid) ∧
      (queueFifty.size = 50 →
        carEntry lotFull queueFifty "V21".toList 2000 =
          some (lotFull, queueFifty, [Event.parkingFull, Event.queueFull "V21".toList])) :=
  carEntry_lot_full lotFull queueFifty "V21".toList 2000 (by decide) (by decide) (by decide)
    ((findNearestFreeSlot_none_iff (by decide)).1 (by decide))
    ((isCarParked_none_iff (by decide) _).1 (by decide))

/-- C5: the circular buffer refines a bounded FIFO list. For every sequence of `enqueue`
and `dequeue` calls applied to `initQueue` (registrations of at most 31 characters),
all calls complete, the front-to-rear contents equal those of the abstract list queue
of capacity 50, and the results of the `dequeue` calls are the abstract ones (the oldest
id, or the empty string where the abstract queue is empty); `dequeue` on an empty queue
leaves the queue unchanged. -/
theorem queue_refines_fifo (q0 : Queue) (ops : List QOp) (hfit : ∀ op ∈ ops, op.Fits) :
    (∃ q outs, runOps (initQueue q0) ops = some (q, outs) ∧
        displayQueue q = some (absRun [] ops).1 ∧
        outs = (absRun [] ops).2.map (fun o => o.getD [])) ∧
    (∀ q : Queue, q.size = 0 → dequeue q = some (q, [])) := by
  refine ⟨?_, dequeue_empty⟩
  have hv := initQueue_valid q0
  have hnil : (initQueue q0).contents = [] := Queue.contents_nil _ rfl
  obtain ⟨q1, outs, g1, g2, g3, g4⟩ :=
    runOps_refines ops (initQueue q0) hv (by rw [hnil]; simp) hfit
  rw [hnil] at g3 g4
  exact ⟨q1, outs, g1, by rw [displayQueue_eq q1 g2.1 g2.2.1, g3], g4⟩

theorem queue_refines_fifo_witness :
    (∃ q outs, runOps (initQueue queueFifty) wrapOps = some (q, outs) ∧
        displayQueue q = some (absRun [] wrapOps).1 ∧
        outs = (absRun [] wrapOps).2.map (fun o => o.getD [])) ∧
    (∀ q : Queue, q.size = 0 → dequeue q = some (q, [])) :=
  queue_refines_fifo queueFifty wrapOps (by decide)

/-! ## Exit: fee, vacating and promotion -/

theorem itemIdx_some {i : Int} {k : Fin QUEUE_CAP} (h : itemIdx i = some k) :
    0 ≤ i ∧ i < 50 := by
  unfold itemIdx at h
  by_cases hin : 0 ≤ i ∧ i < ((QUEUE_CAP : Nat) : Int)
  · exact ⟨hin.1, by simpa using hin.2⟩
  · rw [dif_neg hin] at h
    cases h

/-- A queue that displays at least one item is non-empty with `front` in range. -/
theorem displayQueue_cons {q : Queue} {w : Reg} {rest : List Reg}
    (h : displayQueue q = some (w :: rest)) : 0 < q.size ∧ 0 ≤ q.front ∧ q.front < 50 := by
  unfold displayQueue at h
  by_cases hs : q.size = 0
  · simp [isQueueEmpty, hs] at h
  · simp only [isQueueEmpty, hs, decide_False, Bool.false_eq_true, if_false] at h
    cases hn : q.size.toNat with
    | zero =>
      rw [hn] at h
      simp [displayLoop] at h
    | succ n =>
      rw [hn, displayLoop] at h
      cases hk : itemIdx q.front with
      | none =>
        rw [hk] at h
        simp at h
      | some k =>
        have := itemIdx_some hk
        exact ⟨by omega, this.1, this.2⟩

theorem assignFromQueueIfAny_empty (p : ParkingLot) (q : Queue) (now : Int)
    (hs : q.size = 0) : assignFromQueueIfAny p q now = some (p, q, []) := by
  simp [assignFromQueueIfAny, isQueueEmpty, hs]

/-- Promotion step: with a non-empty queue and first free slot `(r, c)`, the front
registration is dequeued and written into `(r, c)`. -/
theorem assignFromQueueIfAny_promote (p : ParkingLot) (q : Queue) (now : Int) {r c : Nat}
    (hp : p.Valid) (hff : FirstFree p r c)
    (f0 : 0 ≤ q.front) (f1 : q.front < 50) (hs : 0 < q.size) :
    ∃ p2 q2, assignFromQueueIfAny p q now =
        some (p2, q2, [Event.assigned (strncpy (q.at q.front) 31) r c]) ∧
      (q2.items = q.items ∧ q2.front = (q.front + 1) % 50 ∧ q2.rear = q.rear ∧
        q2.size = q.size - 1 ∧ q.contents = q.at q.front :: q2.contents) ∧
      (p2.rows = p.rows ∧ p2.cols = p.cols ∧
        slotAt p2 r c = some ⟨1, strncpy (strncpy (q.at q.front) 31) 31, now⟩ ∧
        ∀ a b, a ≠ r ∨ b ≠ c → slotAt p2 a b = slotAt p a b) := by
  have hfind := (findNearestFreeSlot_some_iff hp r c).2 hff
  obtain ⟨s, hsl, _⟩ := hff.2.1
  obtain ⟨hi, hj⟩ := slotAt_bounds hsl
  obtain ⟨q2, e1, e2⟩ := dequeue_spec q f0 f1 hs
  obtain ⟨p2, g1, g2⟩ :=
    setSlot_spec p ⟨1, strncpy (strncpy (q.at q.front) 31) 31, now⟩ hi hj
  have hne : isQueueEmpty q = false := by
    simp only [isQueueEmpty, decide_eq_false_iff_not]
    omega
  refine ⟨p2, q2, ?_, e2, g2⟩
  unfold assignFromQueueIfAny
  simp only [hne, Bool.false_eq_true, if_false, hfind, e1]
  have g1' : setSlot p r c ⟨1, strncpy (strncpy (q.at q.front) 31) (MAX_REG_LEN - 1), now⟩ =
      some p2 := g1
  simp only [g1']

/-- On a lot that fits the array and a consistent queue the promotion step completes. -/
theorem assignFromQueueIfAny_total (p : ParkingLot) (q : Queue) (now : Int)
    (hp : p.Valid) (hq : q.Valid) :
    ∃ p2 q2 ev, assignFromQueueIfAny p q now = some (p2, q2, ev) := by
  by_cases hs : q.size = 0
  · exact ⟨p, q, [], assignFromQueueIfAny_empty p q now hs⟩
  · rcases findNearestFreeSlot_cases hp with ⟨r, c, _, h2⟩ | ⟨h1, _⟩
    · have hpos : 0 < q.size := by
        have := hq.2.2.1
        omega
      obtain ⟨p2, q2, h, _⟩ :=
        assignFromQueueIfAny_promote p q now hp h2 hq.1 hq.2.1 hpos
      exact ⟨p2, q2, _, h⟩
    · refine ⟨p, q, [], ?_⟩
      simp [assignFromQueueIfAny, isQueueEmpty, hs, h1]

/-- Unfolding of `carExit` for a parked vehicle: the slot is cleared, the promotion step
runs on the cleared lot, and the fee of the stay is printed and recorded. -/
theorem carExit_found (p : ParkingLot) (q : Queue) (id : Reg) (exit_time assign_time : Int)
    {r c : Nat} {s : Slot} (hp : p.Valid) (hpark : ParkedAt p id r c)
    (hs : slotAt p r c = some s) :
    ∃ p1, (p1.Valid ∧ p1.rows = p.rows ∧ p1.cols = p.cols ∧
        slotAt p1 r c = some ⟨0, [], 0⟩ ∧
        ∀ a b, a ≠ r ∨ b ≠ c → slotAt p1 a b = slotAt p a b) ∧
      ∀ p2 q2 ev, assignFromQueueIfAny p1 q assign_time = some (p2, q2, ev) →
        carExit p q id exit_time assign_time =
          some (p2, q2,
            Event.leaving id r c s.entry_time exit_time (difftime exit_time s.entry_time)
                (billedHours (difftime exit_time s.entry_time))
                (feeFor (difftime exit_time s.entry_time)) ::
              Event.record id s.entry_time exit_time
                (feeFor (difftime exit_time s.entry_time)) :: ev) := by
  have hfound := (isCarParked_some_iff hp id r c).2 hpark
  obtain ⟨hi, hj⟩ := slotAt_bounds hs
  obtain ⟨p1, g1, g2, g3, g4, g5⟩ := setSlot_spec p ⟨0, [], 0⟩ hi hj
  have hp1 : p1.Valid := by
    unfold ParkingLot.Valid
    rw [g2, g3]
    exact hp
  refine ⟨p1, ⟨hp1, g2, g3, g4, g5⟩, ?_⟩
  intro p2 q2 ev ha
  simp [carExit, hfound, hs, g1, ha]

theorem billedHours_eq (x : ℚ) : billedHours x = ((max 1 ⌈x / 3600⌉ : Int) : ℚ) := by
  unfold billedHours
  simp only
  by_cases h : ⌈x / 3600⌉ < 1
  · have hq : ((⌈x / 3600⌉ : Int) : ℚ) < 1 := by exact_mod_cast h
    rw [if_pos hq, max_eq_left (le_of_lt h)]
    simp
  · have hq : ¬ ((⌈x / 3600⌉ : Int) : ℚ) < 1 := by
      intro h'
      exact h (by exact_mod_cast h')
    rw [if_neg hq, max_eq_right (not_lt.1 h)]

theorem feeFor_eq (x : ℚ) : feeFor x = ((max 1 ⌈x / 3600⌉ : Int) : ℚ) * 20 := by
  unfold feeFor RATE_PER_HOUR
  rw [billedHours_eq]

theorem feeFor_mono {x y : ℚ} (h : x ≤ y) : feeFor x ≤ feeFor y := by
  rw [feeFor_eq, feeFor_eq]
  have h1 : ⌈x / 3600⌉ ≤ ⌈y / 3600⌉ :=
    Int.ceil_mono (div_le_div_of_nonneg_right h (by norm_num))
  have h2 : max 1 ⌈x / 3600⌉ ≤ max 1 ⌈y / 3600⌉ := max_le_max (le_refl 1) h1
  have h3 : ((max 1 ⌈x / 3600⌉ : Int) : ℚ) ≤ ((max 1 ⌈y / 3600⌉ : Int) : ℚ) := by
    exact_mod_cast h2
  linarith

theorem feeFor_nonpos {x : ℚ} (h : x ≤ 0) : feeFor x = 20 := by
  rw [feeFor_eq]
  have h1 : ⌈x / 3600⌉ ≤ 0 := by
    rw [Int.ceil_le]
    have : x / 3600 ≤ 0 := div_nonpos_of_nonpos_of_nonneg h (by norm_num)
    simpa using this
  rw [max_eq_left (by omega)]
  norm_num

theorem billedHours_nonpos {x : ℚ} (h : x ≤ 0) : billedHours x = 1 := by
  rw [billedHours_eq]
  have h1 : ⌈x / 3600⌉ ≤ 0 := by
    rw [Int.ceil_le]
    have : x / 3600 ≤ 0 := div_nonpos_of_nonpos_of_nonneg h (by norm_num)
    simpa using this
  rw [max_eq_left (by omega)]
  norm_num

theorem feeFor_3600 : feeFor 3600 = 20 := by
  rw [feeFor_eq]
  have h : ⌈(3600 : ℚ) / 3600⌉ = 1 := by
    rw [Int.ceil_eq_iff]
    norm_num
  rw [h]
  norm_num

theorem feeFor_3601 : feeFor 3601 = 40 := by
  rw [feeFor_eq]
  have h : ⌈(3601 : ℚ) / 3600⌉ = 2 := by
    rw [Int.ceil_eq_iff]
    norm_num
  rw [h]
  norm_num

theorem feeFor_5400 : feeFor 5400 = 40 := by
  rw [feeFor_eq]
  have h : ⌈(5400 : ℚ) / 3600⌉ = 2 := by
    rw [Int.ceil_eq_iff]
    norm_num
  rw [h]
  norm_num

theorem difftime_eq (t1 t0 : Int) : difftime t1 t0 = ((t1 - t0 : Int) : ℚ) := by
  unfold difftime
  push_cast
  rfl

/-! ## Claims about the fee -/

/-- C6: for a parked vehicle whose stay lasts `s` whole seconds (`s ≥ 0` in the claim;
the bound is not needed), `carExit` prints and records the fee
`max(1, ceil(s / 3600)) * 20`; a stay of 0 s or of 3600 s is billed 20, a stay of
3601 s or of 5400 s is billed 40. -/
theorem carExit_fee (p : ParkingLot) (q : Queue) (id : Reg) (exit_time assign_time : Int)
    (r c : Nat) (s : Slot) (hp : p.Valid) (hq : q.Valid) (hpark : ParkedAt p id r c)
    (hs : slotAt p r c = some s) :
    ∃ p2 q2 ev secs hours fee,
      carExit p q id exit_time assign_time =
        some (p2, q2, Event.leaving id r c s.entry_time exit_time secs hours fee ::
          Event.record id s.entry_time exit_time fee :: ev) ∧
      fee = ((max 1 ⌈((exit_time - s.entry_time : Int) : ℚ) / 3600⌉ : Int) : ℚ) * 20 ∧
      (exit_time - s.entry_time = 0 → fee = 20) ∧
      (exit_time - s.entry_time = 3600 → fee = 20) ∧
      (exit_time - s.entry_time = 3601 → fee = 40) ∧
      (exit_time - s.entry_time = 5400 → fee = 40) := by
  obtain ⟨p1, ⟨hp1, _⟩, hexit⟩ := carExit_found p q id exit_time assign_time hp hpark hs
  obtain ⟨p2, q2, ev, ha⟩ := assignFromQueueIfAny_total p1 q assign_time hp1 hq
  refine ⟨p2, q2, ev, _, _, _, hexit p2 q2 ev ha, ?_, ?_, ?_, ?_, ?_⟩
  · rw [difftime_eq, feeFor_eq]
  · intro h
    rw [difftime_eq, h]
    exact feeFor_nonpos (by norm_num)
  · intro h
    rw [difftime_eq, h]
    simpa using feeFor_3600
  · intro h
    rw [difftime_eq, h]
    simpa using feeFor_3601
  · intro h
    rw [difftime_eq, h]
    simpa using feeFor_5400

theorem carExit_fee_witness :
    ∃ p2 q2 ev secs hours fee,
      carExit lotFull queueOne "V1".toList 6400 6400 =
        some (p2, q2, Event.leaving "V1".toList 0 0 1000 6400 secs hours fee ::
          Event.record "V1".toList 1000 6400 fee :: ev) ∧
      fee = ((max 1 ⌈((6400 - 1000 : Int) : ℚ) / 3600⌉ : Int) : ℚ) * 20 ∧
      ((6400 : Int) - 1000 = 0 → fee = 20) ∧
      ((6400 : Int) - 1000 = 3600 → fee = 20) ∧
      ((6400 : Int) - 1000 = 3601 → fee = 40) ∧
      ((6400 : Int) - 1000 = 5400 → fee = 40) :=
  carExit_fee lotFull queueOne "V1".toList 6400 6400 0 0 ⟨1, "V1".toList, 1000⟩
    (by decide) (by decide) ((isCarParked_some_iff (by decide) _ 0 0).1 (by decide))
    (by decide)

/-- C7: fee monotonicity. For stays of `d1 ≤ d2` seconds the fee computed by `carExit`
for the first is at most the fee computed for the second. -/
theorem carExit_fee_monotone (entry1 exit1 entry2 exit2 : Int)
    (h : exit1 - entry1 ≤ exit2 - entry2) :
    feeFor (difftime exit1 entry1) ≤ feeFor (difftime exit2 entry2) := by
  apply feeFor_mono
  rw [difftime_eq, difftime_eq]
  exact_mod_cast h

theorem carExit_fee_monotone_witness :
    (4600 : Int) - 1000 ≤ 4601 - 1000 ∧
      feeFor (difftime 4600 1000) ≤ feeFor (difftime 4601 1000) :=
  ⟨by decide, carExit_fee_monotone 1000 4600 1000 4601 (by decide)⟩

/-- The clock-backward claim fails on the code: "KA01" entered at time 100 and leaves at
clock value 50. The exit is carried out, a record with fee 20 is appended and the slot
is cleared. -/
theorem carExit_clock_backward_counterexample :
    ParkedAt lotTwo "KA01".toList 0 0 ∧
    slotAt lotTwo 0 0 = some ⟨1, "KA01".toList, 100⟩ ∧ (50 : Int) - 100 < 0 ∧
    (∃ p2, carExit lotTwo queueEmpty "KA01".toList 50 50 =
        some (p2, queueEmpty,
          [Event.leaving "KA01".toList 0 0 100 50 (-50) 1 20,
           Event.record "KA01".toList 100 50 20]) ∧
      slotAt p2 0 0 = some ⟨0, [], 0⟩) ∧
    ¬ ∃ ev, carExit lotTwo queueEmpty "KA01".toList 50 50 = some (lotTwo, queueEmpty, ev) := by
  have hp : lotTwo.Valid := by decide
  have hpark : ParkedAt lotTwo "KA01".toList 0 0 :=
    (isCarParked_some_iff hp _ 0 0).1 (by decide)
  have hs : slotAt lotTwo 0 0 = some ⟨1, "KA01".toList, 100⟩ := by decide
  obtain ⟨p1, ⟨_, _, _, h0, _⟩, hexit⟩ :=
    carExit_found lotTwo queueEmpty "KA01".toList 50 50 hp hpark hs
  have hrun := hexit p1 queueEmpty [] (assignFromQueueIfAny_empty p1 queueEmpty 50 rfl)
  have hd : difftime 50 100 = -50 := by
    unfold difftime
    norm_num
  simp only [hd, feeFor_nonpos (show (-50 : ℚ) ≤ 0 by norm_num),
    billedHours_nonpos (show (-50 : ℚ) ≤ 0 by norm_num)] at hrun
  refine ⟨hpark, hs, by decide, ⟨p1, hrun, h0⟩, ?_⟩
  rintro ⟨ev, hev⟩
  rw [hrun] at hev
  have hp1 : p1 = lotTwo := by
    injection hev with hev
    injection hev
  rw [hp1, hs] at h0
  exact absurd h0 (by decide)

/-- C8 as amended: when the stored entry time of the parked vehicle is later than the
exit clock value, `carExit` proceeds like any other exit: it bills one hour (fee 20),
appends a visit record with that fee, clears the slot and runs the promotion step. -/
theorem carExit_clock_backward (p : ParkingLot) (q : Queue) (id : Reg)
    (exit_time assign_time : Int) (r c : Nat) (s : Slot) (hp : p.Valid) (hq : q.Valid)
    (hpark : ParkedAt p id r c) (hs : slotAt p r c = some s)
    (hneg : exit_time - s.entry_time < 0) :
    ∃ p1 p2 q2 ev,
      (slotAt p1 r c = some ⟨0, [], 0⟩ ∧
        ∀ a b, a ≠ r ∨ b ≠ c → slotAt p1 a b = slotAt p a b) ∧
      assignFromQueueIfAny p1 q assign_time = some (p2, q2, ev) ∧
      carExit p q id exit_time assign_time =
        some (p2, q2,
          Event.leaving id r c s.entry_time exit_time (exit_time - s.entry_time : Int) 1 20 ::
            Event.record id s.entry_time exit_time 20 :: ev) := by
  obtain ⟨p1, ⟨hp1, _, _, h0, hrest⟩, hexit⟩ :=
    carExit_found p q id exit_time assign_time hp hpark hs
  obtain ⟨p2, q2, ev, ha⟩ := assignFromQueueIfAny_total p1 q assign_time hp1 hq
  have hle : ((exit_time - s.entry_time : Int) : ℚ) ≤ 0 := by
    exact_mod_cast le_of_lt hneg
  refine ⟨p1, p2, q2, ev, ⟨h0, hrest⟩, ha, ?_⟩
  rw [hexit p2 q2 ev ha, difftime_eq, feeFor_nonpos hle, billedHours_nonpos hle]

theorem carExit_clock_backward_witness :
    ∃ p1 p2 q2 ev,
      (slotAt p1 0 1 = some ⟨0, [], 0⟩ ∧
        ∀ a b, a ≠ 0 ∨ b ≠ 1 → slotAt p1 a b = slotAt lotTwo a b) ∧
      assignFromQueueIfAny p1 queueEmpty 150 = some (p2, q2, ev) ∧
      carExit lotTwo queueEmpty "KA02".toList 150 150 =
        some (p2, q2,
          Event.leaving "KA02".toList 0 1 200 150 ((150 - 200 : Int) : ℚ) 1 20 ::
            Event.record "KA02".toList 200 150 20 :: ev) :=
  carExit_clock_backward lotTwo queueEmpty "KA02".toList 150 150 0 1
    ⟨1, "KA02".toList, 200⟩ (by decide) (by decide)
    ((isCarParked_some_iff (by decide) _ 0 1).1 (by decide)) (by decide) (by decide)

/-! ## Claims about exit -/

/-- C9: if `id` is stored in no occupied slot, `carExit` reports "not found" and leaves
the lot and the waiting queue exactly unchanged; nothing is billed, recorded or
promoted. -/
theorem carExit_not_found (p : ParkingLot) (q : Queue) (id : Reg)
    (exit_time assign_time : Int) (hp : p.Valid)
    (hnot : ∀ i j, InGrid p i j → ¬ Holds p id i j) :
    carExit p q id exit_time assign_time = some (p, q, [Event.notFound]) := by
  have hpark : isCarParked p id = some none := (isCarParked_none_iff hp id).2 hnot
  simp [carExit, hpark]

theorem carExit_not_found_witness :
    carExit lotTwo queueOne "KA09".toList 500 500 = some (lotTwo, queueOne, [Event.notFound]) :=
  carExit_not_found lotTwo queueOne "KA09".toList 500 500 (by decide)
    ((isCarParked_none_iff (by decide) _).1 (by decide))

/-- Exit from a full lot with a non-empty queue: the freed slot goes to the front of
the queue, stamped with the clock value read by the promotion step. -/
theorem carExit_promote_step (p : ParkingLot) (q : Queue) (id : Reg)
    (exit_time now : Int) (r c : Nat) (w : Reg) (rest : List Reg) (hp : p.Valid)
    (hfull : ∀ i j, InGrid p i j → Occupied p i j)
    (hq : displayQueue q = some (w :: rest)) (hw : w.length ≤ 31)
    (hpark : ParkedAt p id r c) :
    ∃ p2 q2 ev, carExit p q id exit_time now = some (p2, q2, ev) ∧
      slotAt p2 r c = some ⟨1, w, now⟩ ∧
      (∀ a b, a ≠ r ∨ b ≠ c → slotAt p2 a b = slotAt p a b) ∧
      p2.rows = p.rows ∧ p2.cols = p.cols ∧
      (∀ i j, InGrid p2 i j → Occupied p2 i j) ∧
      q2.size = q.size - 1 ∧ displayQueue q2 = some rest ∧
      Event.assigned w r c ∈ ev := by
  obtain ⟨hpos, f0, f1⟩ := displayQueue_cons hq
  obtain ⟨s, hs, _, _⟩ := hpark.2.1
  obtain ⟨p1, ⟨hp1, hr1, hc1, h0, hrest1⟩, hexit⟩ :=
    carExit_found p q id exit_time now hp hpark hs
  have hne : ∀ {i j : Nat}, Before i j r c → i ≠ r ∨ j ≠ c := by
    intro i j hb
    unfold Before at hb
    omega
  have hff : FirstFree p1 r c := by
    refine ⟨?_, ⟨_, h0, rfl⟩, ?_⟩
    · unfold InGrid
      rw [hr1, hc1]
      exact hpark.1
    · intro i j hg hb
      unfold Occupied
      rw [hrest1 i j (hne hb)]
      apply hfull
      unfold InGrid at hg ⊢
      rw [hr1, hc1] at hg
      exact hg
  obtain ⟨p2, q2, ha, ⟨_, qf, _, qs, qc⟩, ⟨hr2, hc2, hslot, hrest2⟩⟩ :=
    assignFromQueueIfAny_promote p1 q now hp1 hff f0 f1 hpos
  have hcont : q.contents = w :: rest := by
    have := displayQueue_eq q f0 f1
    rw [hq] at this
    exact (Option.some.inj this).symm
  rw [qc] at hcont
  obtain ⟨hw1, hrest⟩ := List.cons.inj hcont
  have hcopy : strncpy (q.at q.front) 31 = w := by
    rw [hw1]
    exact List.take_of_length_le hw
  have hcopy2 : strncpy w 31 = w := List.take_of_length_le hw
  rw [hcopy, hcopy2] at hslot
  rw [hcopy] at ha
  refine ⟨p2, q2, _, hexit p2 q2 _ ha, hslot, ?_, by rw [hr2, hr1], by rw [hc2, hc1],
    ?_, qs, ?_, ?_⟩
  · intro a b hab
    rw [hrest2 a b hab, hrest1 a b hab]
  · intro i j hg
    by_cases hij : i = r ∧ j = c
    · obtain ⟨rfl, rfl⟩ := hij
      exact ⟨_, hslot, one_ne_zero⟩
    · have hab : i ≠ r ∨ j ≠ c := by omega
      unfold Occupied
      rw [hrest2 i j hab, hrest1 i j hab]
      apply hfull
      unfold InGrid at hg ⊢
      rw [hr2, hc2, hr1, hc1] at hg
      exact hg
  · rw [displayQueue_eq q2 (by omega) (by omega), hrest]
  · simp

/-- C10 as amended: promotion. If every slot of the grid is occupied, the waiting queue
reads `w :: rest` from the front (`w` of at most 31 characters), and `id` is parked,
`(r, c)` being the first occupied slot in row-major order that holds `id`, then
`carExit` leaves slot `(r, c)` occupied by `w` with entry time equal to the clock value
`assign_time` read by the promotion step (the exit timestamp when the clock has not
advanced since it was taken), leaves every other slot unchanged (the lot is full again),
and the queue has one item less: `w` is removed from the front and the order of the
remaining ids is kept. -/
theorem carExit_promotes (p : ParkingLot) (q : Queue) (id : Reg)
    (exit_time assign_time : Int) (r c : Nat) (w : Reg) (rest : List Reg) (hp : p.Valid)
    (hfull : ∀ i j, InGrid p i j → Occupied p i j)
    (hq : displayQueue q = some (w :: rest)) (hw : w.length ≤ 31)
    (hpark : ParkedAt p id r c) :
    (∃ p2 q2 ev, carExit p q id exit_time assign_time = some (p2, q2, ev) ∧
      slotAt p2 r c = some ⟨1, w, assign_time⟩ ∧
      (∀ a b, a ≠ r ∨ b ≠ c → slotAt p2 a b = slotAt p a b) ∧
      p2.rows = p.rows ∧ p2.cols = p.cols ∧
      (∀ i j, InGrid p2 i j → Occupied p2 i j) ∧
      q2.size = q.size - 1 ∧ displayQueue q2 = some rest ∧
      Event.assigned w r c ∈ ev) ∧
    (assign_time = exit_time →
      ∃ p2 q2 ev, carExit p q id exit_time assign_time = some (p2, q2, ev) ∧
        slotAt p2 r c = some ⟨1, w, exit_time⟩) := by
  have h := carExit_promote_step p q id exit_time assign_time r c w rest hp hfull hq hw hpark
  refine ⟨h, ?_⟩
  intro heq
  obtain ⟨p2, q2, ev, h1, h2, _⟩ := h
  exact ⟨p2, q2, ev, h1, by rw [h2, heq]⟩

theorem carExit_promotes_witness :
    (∃ p2 q2 ev, carExit lotFull queueOne "V1".toList 6400 6400 = some (p2, q2, ev) ∧
      slotAt p2 0 0 = some ⟨1, "V21".toList, 6400⟩ ∧
      (∀ a b, a ≠ 0 ∨ b ≠ 0 → slotAt p2 a b = slotAt lotFull a b) ∧
      p2.rows = lotFull.rows ∧ p2.cols = lotFull.cols ∧
      (∀ i j, InGrid p2 i j → Occupied p2 i j) ∧
      q2.size = queueOne.size - 1 ∧ displayQueue q2 = some [] ∧
      Event.assigned "V21".toList 0 0 ∈ ev) ∧
    ((6400 : Int) = 6400 →
      ∃ p2 q2 ev, carExit lotFull queueOne "V1".toList 6400 6400 = some (p2, q2, ev) ∧
        slotAt p2 0 0 = some ⟨1, "V21".toList, 6400⟩) :=
  carExit_promotes lotFull queueOne "V1".toList 6400 6400 0 0 "V21".toList [] (by decide)
    ((findNearestFreeSlot_none_iff (by decide)).1 (by decide)) (by decide) (by decide)
    ((isCarParked_some_iff (by decide) _ 0 0).1 (by decide))

/-! ## Initialisation -/

theorem setSlot_write (p : ParkingLot) {i j : Nat} (s : Slot)
    (hi : i < MAX_ROWS) (hj : j < MAX_COLS) :
    ∃ p1, setSlot p i j s = some p1 ∧ SlotWrite p p1 i j s := by
  obtain ⟨p1, h1, h2, h3, h4, h5⟩ := setSlot_spec p s hi hj
  exact ⟨p1, h1, h2, h3, h4, h5⟩

theorem initRow_spec (i : Nat) (hi : i < MAX_ROWS) :
    ∀ n (p : ParkingLot) j, j + n ≤ MAX_COLS →
      ∃ p1, initRow p i n j = some p1 ∧ p1.rows = p.rows ∧ p1.cols = p.cols ∧
        (∀ b, j ≤ b → b < j + n → slotAt p1 i b = some ⟨0, [], 0⟩) ∧
        (∀ a b, a ≠ i ∨ b < j ∨ j + n ≤ b → slotAt p1 a b = slotAt p a b) := by
  intro n
  induction n with
  | zero =>
    intro p j _
    refine ⟨p, rfl, rfl, rfl, ?_, fun _ _ _ => rfl⟩
    intro b h1 h2
    omega
  | succ n ih =>
    intro p j hj
    obtain ⟨p1, e1, r1, c1, w1, o1⟩ := setSlot_write p ⟨0, [], 0⟩ hi (by omega : j < MAX_COLS)
    obtain ⟨p2, e2, r2, c2, w2, o2⟩ := ih p1 (j + 1) (by omega)
    refine ⟨p2, ?_, by rw [r2, r1], by rw [c2, c1], ?_, ?_⟩
    · simp [initRow, e1, e2]
    · intro b h1 h2
      by_cases hb : b = j
      · subst hb
        rw [o2 i b (Or.inr (Or.inl (by omega))), w1]
      · exact w2 b (by omega) (by omega)
    · intro a b hab
      rw [o2 a b (by omega), o1 a b (by omega)]

theorem initRows_spec :
    ∀ m (p : ParkingLot) i, p.cols ≤ MAX_COLS → i + m ≤ MAX_ROWS →
      ∃ p1, initRows p m i = some p1 ∧ p1.rows = p.rows ∧ p1.cols = p.cols ∧
        (∀ a b, i ≤ a → a < i + m → b < p.cols.toNat → slotAt p1 a b = some ⟨0, [], 0⟩) ∧
        (∀ a b, a < i ∨ i + m ≤ a ∨ p.cols.toNat ≤ b → slotAt p1 a b = slotAt p a b) := by
  intro m
  induction m with
  | zero =>
    intro p i _ _
    refine ⟨p, rfl, rfl, rfl, ?_, fun _ _ _ => rfl⟩
    intro a b h1 h2
    omega
  | succ m ih =>
    intro p i hc hi
    have hc5 : p.cols ≤ 5 := hc
    obtain ⟨p1, e1, r1, c1, w1, o1⟩ :=
      initRow_spec i (by omega) p.cols.toNat p 0 (by omega)
    obtain ⟨p2, e2, r2, c2, w2, o2⟩ := ih p1 (i + 1) (by rw [c1]; exact hc) (by omega)
    rw [c1] at w2 o2
    refine ⟨p2, ?_, by rw [r2, r1], by rw [c2, c1], ?_, ?_⟩
    · simp [initRows, e1, e2]
    · intro a b h1 h2 hb
      by_cases ha : a = i
      · subst ha
        rw [o2 a b (Or.inl (by omega))]
        exact w1 b (by omega) (by omega)
      · exact w2 a b (by omega) (by omega) hb
    · intro a b hab
      rw [o2 a b (by omega), o1 a b (by omega)]

/-- `initParkingLot` with the full dimensions yields the empty 4×5 lot, whatever the
memory held before. -/
theorem initParkingLot_eq (p0 : ParkingLot) : initParkingLot p0 4 5 = some lotInit := by
  unfold initParkingLot
  have hc : ({ rows := 4, cols := 5, slots := p0.slots } : ParkingLot).cols ≤ MAX_COLS :=
    le_refl _
  obtain ⟨p1, e1, r1, c1, w1, _⟩ :=
    initRows_spec 4 { rows := 4, cols := 5, slots := p0.slots } 0 hc (by decide)
  have e1' : initRows { rows := 4, cols := 5, slots := p0.slots } (4 : Int).toNat 0 =
      some p1 := e1
  rw [e1']
  congr 1
  have r1' : p1.rows = lotInit.rows := r1
  have c1' : p1.cols = lotInit.cols := c1
  apply ParkingLot.ext_slotAt r1' c1'
  intro a b
  by_cases hab : a < MAX_ROWS ∧ b < MAX_COLS
  · have hb : b < (5 : Int).toNat := hab.2
    have ha : a < 0 + 4 := by
      have : a < 4 := hab.1
      omega
    rw [w1 a b (Nat.zero_le _) ha hb]
    simp [slotAt, hab, lotInit]
  · unfold slotAt
    rw [dif_neg hab, dif_neg hab]

theorem isInitial_iff (p : ParkingLot) (q : Queue) :
    IsInitial p q ↔ p = lotInit ∧ ∃ q0, q = initQueue q0 := by
  unfold IsInitial
  constructor
  · rintro ⟨p0, q0, h1, h2⟩
    have h := initParkingLot_eq p0
    have h1' : initParkingLot p0 4 5 = some p := h1
    rw [h] at h1'
    exact ⟨(Option.some.inj h1').symm, q0, h2⟩
  · rintro ⟨rfl, q0, h2⟩
    exact ⟨lotInit, q0, initParkingLot_eq lotInit, h2⟩

/-! ## Case analysis of one call -/

theorem SlotWrite.valid {p p1 : ParkingLot} {r c : Nat} {s : Slot}
    (h : SlotWrite p p1 r c s) (hp : p.Valid) : p1.Valid := by
  unfold ParkingLot.Valid
  rw [h.1, h.2.1]
  exact hp

theorem SlotWrite.inGrid {p p1 : ParkingLot} {r c : Nat} {s : Slot}
    (h : SlotWrite p p1 r c s) (i j : Nat) : InGrid p1 i j ↔ InGrid p i j := by
  unfold InGrid
  rw [h.1, h.2.1]

/-- The four outcomes of `carEntry` on a lot that fits the array and a consistent queue:
already parked, allocated to the first free slot, queued, queue full. -/
theorem carEntry_cases (p : ParkingLot) (q : Queue) (reg : Reg) (now : Int)
    (hp : p.Valid) (hq : q.Valid) :
    ((∃ i j, InGrid p i j ∧ Holds p reg i j) ∧
        carEntry p q reg now = some (p, q, [Event.alreadyParked])) ∨
    ((∀ i j, InGrid p i j → ¬ Holds p reg i j) ∧
        ∃ r c p1, FirstFree p r c ∧ SlotWrite p p1 r c ⟨1, strncpy reg 31, now⟩ ∧
          carEntry p q reg now = some (p1, q, [Event.allocated r c reg])) ∨
    ((∀ i j, InGrid p i j → ¬ Holds p reg i j) ∧ (∀ i j, InGrid p i j → Occupied p i j) ∧
        q.size < 50 ∧
        ∃ q1, (q1.Valid ∧ q1.front = q.front ∧ q1.size = q.size + 1 ∧
            q1.contents = q.contents ++ [strncpy reg 31]) ∧
          carEntry p q reg now = some (p, q1, [Event.parkingFull])) ∨
    ((∀ i j, InGrid p i j → ¬ Holds p reg i j) ∧ (∀ i j, InGrid p i j → Occupied p i j) ∧
        q.size = 50 ∧
        carEntry p q reg now = some (p, q, [Event.parkingFull, Event.queueFull reg])) := by
  rcases isCarParked_cases hp reg with ⟨r, c, h1, h2⟩ | ⟨h1, h2⟩
  · left
    exact ⟨⟨r, c, h2.1, h2.2.1⟩, by simp [carEntry, h1]⟩
  · right
    rcases findNearestFreeSlot_cases hp with ⟨r, c, f1, f2⟩ | ⟨f1, f2⟩
    · left
      obtain ⟨s, hs, _⟩ := f2.2.1
      obtain ⟨hi, hj⟩ := slotAt_bounds hs
      obtain ⟨p1, g1, g2⟩ := setSlot_write p ⟨1, strncpy reg 31, now⟩ hi hj
      have g1' : setSlot p r c ⟨1, strncpy reg (MAX_REG_LEN - 1), now⟩ = some p1 := g1
      refine ⟨h2, r, c, p1, f2, g2, ?_⟩
      simp only [carEntry, h1, f1, g1']
    · right
      by_cases hs : q.size < 50
      · left
        obtain ⟨q1, e1, e2⟩ := enqueue_spec q reg hq hs
        refine ⟨h2, f2, hs, q1, e2, ?_⟩
        simp [carEntry, h1, f1, e1]
      · right
        have hs50 : q.size = 50 := by
          have := hq.2.2.2.1
          omega
        refine ⟨h2, f2, hs50, ?_⟩
        simp [carEntry, h1, f1, enqueue_full q reg hs50]

/-- The outcomes of `carExit` on a lot that fits the array and a consistent queue: not
found; or the slot of the vehicle is cleared and then either the queue is empty, or
the front of the queue is moved into the first free slot of the cleared lot. -/
theorem carExit_cases (p : ParkingLot) (q : Queue) (id : Reg) (exit_time assign_time : Int)
    (hp : p.Valid) (hq : q.Valid) :
    ((∀ i j, InGrid p i j → ¬ Holds p id i j) ∧
        carExit p q id exit_time assign_time = some (p, q, [Event.notFound])) ∨
    ∃ r c s p1, ParkedAt p id r c ∧ slotAt p r c = some s ∧
      SlotWrite p p1 r c ⟨0, [], 0⟩ ∧
      ((q.size = 0 ∧ ∃ ev, carExit p q id exit_time assign_time = some (p1, q, ev)) ∨
       (0 < q.size ∧ ∃ r1 c1 p2 q2 ev, FirstFree p1 r1 c1 ∧
          SlotWrite p1 p2 r1 c1 ⟨1, strncpy (strncpy (q.at q.front) 31) 31, assign_time⟩ ∧
          Dequeued q q2 ∧
          Event.assigned (strncpy (q.at q.front) 31) r1 c1 ∈ ev ∧
          carExit p q id exit_time assign_time = some (p2, q2, ev))) := by
  rcases isCarParked_cases hp id with ⟨r, c, h1, h2⟩ | ⟨h1, h2⟩
  · right
    obtain ⟨s, hs, _⟩ := h2.2.1
    obtain ⟨p1, ⟨hp1, w1, w2, w3, w4⟩, hexit⟩ :=
      carExit_found p q id exit_time assign_time hp h2 hs
    have hw : SlotWrite p p1 r c ⟨0, [], 0⟩ := ⟨w1, w2, w3, w4⟩
    refine ⟨r, c, s, p1, h2, hs, hw, ?_⟩
    by_cases hs0 : q.size = 0
    · left
      exact ⟨hs0, _, hexit p1 q [] (assignFromQueueIfAny_empty p1 q assign_time hs0)⟩
    · right
      have hpos : 0 < q.size := by
        have := hq.2.2.1
        omega
      rcases findNearestFreeSlot_cases hp1 with ⟨r1, c1, _, f2⟩ | ⟨_, f2⟩
      · obtain ⟨p2, q2, a1, a2, a3⟩ :=
          assignFromQueueIfAny_promote p1 q assign_time hp1 f2 hq.1 hq.2.1 hpos
        refine ⟨hpos, r1, c1, p2, q2, _, f2, a3, a2, ?_, hexit p2 q2 _ a1⟩
        simp
      · have hg : InGrid p1 r c := (hw.inGrid r c).2 h2.1
        exact absurd ⟨_, w3, rfl⟩ ((not_free_iff_occupied hp1 hg).2 (f2 r c hg))
  · left
    exact ⟨h2, by simp [carExit, h1]⟩

/-- In a full lot whose slot `(r, c)` has just been cleared, `(r, c)` is the first free
slot. -/
theorem firstFree_of_freed {p p1 : ParkingLot} {r c r1 c1 : Nat} (hp : p.Valid)
    (hfull : ∀ i j, InGrid p i j → Occupied p i j)
    (hw : SlotWrite p p1 r c ⟨0, [], 0⟩) (hff : FirstFree p1 r1 c1) : r1 = r ∧ c1 = c := by
  by_contra hne
  have hab : r1 ≠ r ∨ c1 ≠ c := by omega
  have hg : InGrid p r1 c1 := (hw.inGrid r1 c1).1 hff.1
  obtain ⟨s, hs, h0⟩ := hff.2.1
  rw [hw.2.2.2 r1 c1 hab] at hs
  exact (not_free_iff_occupied hp hg).2 (hfull r1 c1 hg) ⟨s, hs, h0⟩

/-! ## The invariant of reachable states -/

theorem strncpy_length (src : Reg) (n : Nat) : (strncpy src n).length ≤ n := by
  unfold strncpy
  rw [List.length_take]
  exact Nat.min_le_left _ _

theorem valid_of_dims {p : ParkingLot} (hr : p.rows = 4) (hc : p.cols = 5) : p.Valid := by
  unfold ParkingLot.Valid
  rw [hr, hc]
  exact ⟨le_refl _, le_refl _⟩

theorem slotInv_write {p p1 : ParkingLot} {r c : Nat} {s : Slot} (h : SlotInv p)
    (hw : SlotWrite p p1 r c s) (hs : s.occupied = 0 → s.reg = [] ∧ s.entry_time = 0) :
    SlotInv p1 := by
  intro i j s1 h1 h0
  by_cases hij : i = r ∧ j = c
  · obtain ⟨rfl, rfl⟩ := hij
    rw [hw.2.2.1] at h1
    cases h1
    exact hs h0
  · rw [hw.2.2.2 i j (by omega)] at h1
    exact h i j s1 h1 h0

theorem occupied_write {p p1 : ParkingLot} {r c : Nat} {s : Slot}
    (hw : SlotWrite p p1 r c s) (hs : s.occupied ≠ 0)
    (hfull : ∀ i j, (i ≠ r ∨ j ≠ c) → InGrid p i j → Occupied p i j) :
    ∀ i j, InGrid p1 i j → Occupied p1 i j := by
  intro i j hg
  by_cases hij : i = r ∧ j = c
  · obtain ⟨rfl, rfl⟩ := hij
    exact ⟨s, hw.2.2.1, hs⟩
  · have hab : i ≠ r ∨ j ≠ c := by omega
    unfold Occupied
    rw [hw.2.2.2 i j hab]
    exact hfull i j hab ((hw.inGrid i j).1 hg)

theorem inv_init {p : ParkingLot} {q : Queue} (h : IsInitial p q) : Inv p q := by
  obtain ⟨rfl, q0, rfl⟩ := (isInitial_iff p q).1 h
  refine ⟨rfl, rfl, initQueue_valid q0, ?_, ?_, ?_⟩
  · intro i j s hs _
    unfold slotAt at hs
    by_cases hin : i < MAX_ROWS ∧ j < MAX_COLS
    · rw [dif_pos hin] at hs
      cases hs
      exact ⟨rfl, rfl⟩
    · rw [dif_neg hin] at hs
      cases hs
  · intro hne
    exact absurd rfl hne
  · rw [Queue.contents_nil _ rfl]
    intro x hx
    cases hx

theorem inv_entry {p p1 : ParkingLot} {q q1 : Queue} {reg : Reg} {now : Int}
    {ev : List Event} (hinv : Inv p q) (h : carEntry p q reg now = some (p1, q1, ev)) :
    Inv p1 q1 := by
  obtain ⟨hr, hc, hq, hsl, hfull, hlen⟩ := hinv
  have hp : p.Valid := valid_of_dims hr hc
  rcases carEntry_cases p q reg now hp hq with ⟨_, e⟩ | ⟨_, r, c, p2, f, w, e⟩ |
      ⟨_, full, _, q2, ⟨v, _, s2, c2⟩, e⟩ | ⟨_, _, _, e⟩
  · rw [e] at h
    obtain ⟨rfl, rfl, _⟩ := Prod.mk.inj (Option.some.inj h) |>.imp id Prod.mk.inj
    exact ⟨hr, hc, hq, hsl, hfull, hlen⟩
  · rw [e] at h
    obtain ⟨rfl, rfl, _⟩ := Prod.mk.inj (Option.some.inj h) |>.imp id Prod.mk.inj
    have hs0 : q.size = 0 := by
      by_contra hne
      exact (not_free_iff_occupied hp f.1).2 (hfull hne r c f.1) f.2.1
    refine ⟨by rw [w.1, hr], by rw [w.2.1, hc], hq, slotInv_write hsl w ?_, ?_, hlen⟩
    · intro h0
      exact absurd h0 one_ne_zero
    · intro hne
      exact absurd hs0 hne
  · rw [e] at h
    obtain ⟨rfl, rfl, _⟩ := Prod.mk.inj (Option.some.inj h) |>.imp id Prod.mk.inj
    refine ⟨hr, hc, v, hsl, fun _ => full, ?_⟩
    intro x hx
    rw [c2] at hx
    rcases List.mem_append.1 hx with hx | hx
    · exact hlen x hx
    · rw [List.mem_singleton.1 hx]
      exact strncpy_length reg 31
  · rw [e] at h
    obtain ⟨rfl, rfl, _⟩ := Prod.mk.inj (Option.some.inj h) |>.imp id Prod.mk.inj
    exact ⟨hr, hc, hq, hsl, hfull, hlen⟩

theorem inv_exit {p p1 : ParkingLot} {q q1 : Queue} {reg : Reg} {t1 t2 : Int}
    {ev : List Event} (hinv : Inv p q) (h : carExit p q reg t1 t2 = some (p1, q1, ev)) :
    Inv p1 q1 := by
  obtain ⟨hr, hc, hq, hsl, hfull, hlen⟩ := hinv
  have hp : p.Valid := valid_of_dims hr hc
  rcases carExit_cases p q reg t1 t2 hp hq with ⟨_, e⟩ |
      ⟨r, c, s, p2, _, _, w, ⟨hs0, ev2, e⟩ | ⟨hpos, r1, c1, p3, q3, ev3, f, w3, d, _, e⟩⟩
  · rw [e] at h
    obtain ⟨rfl, rfl, _⟩ := Prod.mk.inj (Option.some.inj h) |>.imp id Prod.mk.inj
    exact ⟨hr, hc, hq, hsl, hfull, hlen⟩
  · rw [e] at h
    obtain ⟨rfl, rfl, _⟩ := Prod.mk.inj (Option.some.inj h) |>.imp id Prod.mk.inj
    refine ⟨by rw [w.1, hr], by rw [w.2.1, hc], hq,
      slotInv_write hsl w (fun _ => ⟨rfl, rfl⟩), ?_, hlen⟩
    intro hne
    exact absurd hs0 hne
  · rw [e] at h
    obtain ⟨rfl, rfl, _⟩ := Prod.mk.inj (Option.some.inj h) |>.imp id Prod.mk.inj
    have hfullp := hfull (by omega)
    obtain ⟨rfl, rfl⟩ := firstFree_of_freed hp hfullp w f
    obtain ⟨_, d2, d3, d4, d5⟩ := d
    refine ⟨by rw [w3.1, w.1, hr], by rw [w3.2.1, w.2.1, hc],
      dequeue_valid hq hpos d2 d3 d4, ?_, ?_, ?_⟩
    · exact slotInv_write (slotInv_write hsl w (fun _ => ⟨rfl, rfl⟩)) w3
        (fun h0 => absurd h0 one_ne_zero)
    · intro _
      apply occupied_write w3 one_ne_zero
      intro i j hab hg
      unfold Occupied
      rw [w.2.2.2 i j hab]
      exact hfullp i j ((w.inGrid i j).1 hg)
    · intro x hx
      apply hlen
      rw [d5]
      exact List.mem_cons_of_mem _ hx

/-- Every reachable state satisfies the invariant. -/
theorem Reachable.inv {p : ParkingLot} {q : Queue} (h : Reachable p q) : Inv p q := by
  induction h with
  | init p q h => exact inv_init h
  | entry p p1 q q1 reg now ev _ _ h ih => exact inv_entry ih h
  | exit p p1 q q1 reg t1 t2 ev _ _ h ih => exact inv_exit ih h

/-- From a state satisfying the invariant both calls complete. -/
theorem inv_progress {p : ParkingLot} {q : Queue} (hinv : Inv p q) (reg : Reg)
    (t1 t2 : Int) :
    (∃ res, carEntry p q reg t1 = some res) ∧ (∃ res, carExit p q reg t1 t2 = some res) := by
  obtain ⟨hr, hc, hq, _⟩ := hinv
  have hp : p.Valid := valid_of_dims hr hc
  constructor
  · rcases carEntry_cases p q reg t1 hp hq with ⟨_, e⟩ | ⟨_, _, _, _, _, _, e⟩ |
        ⟨_, _, _, _, _, e⟩ | ⟨_, _, _, e⟩ <;> exact ⟨_, e⟩
  · rcases carExit_cases p q reg t1 t2 hp hq with ⟨_, e⟩ |
        ⟨_, _, _, _, _, _, _, ⟨_, _, e⟩ | ⟨_, _, _, _, _, _, _, _, _, _, e⟩⟩ <;>
      exact ⟨_, e⟩

/-! ## Single promotion and search -/

theorem ParkedAt_unique {p : ParkingLot} {id : Reg} {r c r1 c1 : Nat} (hp : p.Valid)
    (h : ParkedAt p id r c) (h1 : ParkedAt p id r1 c1) : r1 = r ∧ c1 = c := by
  have e := (isCarParked_some_iff hp id r c).2 h
  have e1 := (isCarParked_some_iff hp id r1 c1).2 h1
  rw [e] at e1
  have := Option.some.inj (Option.some.inj e1)
  exact ⟨(Prod.mk.inj this).1.symm, (Prod.mk.inj this).2.symm⟩

theorem free_not_occupied {p : ParkingLot} {a b : Nat} (h : Free p a b) :
    ¬ Occupied p a b := by
  rintro ⟨s1, h1, h2⟩
  obtain ⟨s, hs, h0⟩ := h
  rw [hs] at h1
  cases h1
  exact h2 h0

/-- After clearing slot `(r, c)`, neither that slot nor a slot that was free is occupied. -/
theorem not_occupied_of_freed {p p1 : ParkingLot} {r c : Nat}
    (hw : SlotWrite p p1 r c ⟨0, [], 0⟩) {a b : Nat}
    (h : Free p a b ∨ (a = r ∧ b = c)) : ¬ Occupied p1 a b := by
  by_cases hab : a = r ∧ b = c
  · obtain ⟨rfl, rfl⟩ := hab
    exact free_not_occupied ⟨_, hw.2.2.1, rfl⟩
  · have hne : a ≠ r ∨ b ≠ c := by omega
    rcases h with h | h
    · unfold Occupied
      rw [hw.2.2.2 a b hne]
      exact free_not_occupied h
    · exact absurd h hab

theorem Dequeued.display {q q2 : Queue} (hq : q.Valid) (d : Dequeued q q2) :
    displayQueue q = some (q.at q.front :: q2.contents) ∧
      displayQueue q2 = some q2.contents := by
  obtain ⟨_, d2, _, _, d5⟩ := d
  obtain ⟨f0, f1, _⟩ := hq
  constructor
  · rw [displayQueue_eq q f0 f1, d5]
  · exact displayQueue_eq q2 (by omega) (by omega)

/-- C11: single promotion per exit. For every state (lot dimensions fitting the array,
consistent queue; any number of free slots and queued vehicles) and every parked `id`,
`carExit` removes at most one id, the front one, from the waiting queue, the queue size
after the call is at least the size before minus 1, and at most one slot that was free
or has just been freed is occupied afterwards. -/
theorem carExit_single_promotion (p : ParkingLot) (q : Queue) (id : Reg)
    (exit_time assign_time : Int) (r c : Nat) (hp : p.Valid) (hq : q.Valid)
    (hpark : ParkedAt p id r c) :
    ∃ p2 q2 ev l l2, carExit p q id exit_time assign_time = some (p2, q2, ev) ∧
      displayQueue q = some l ∧ displayQueue q2 = some l2 ∧
      (l2 = l ∨ ∃ w, l = w :: l2) ∧
      q.size - 1 ≤ q2.size ∧
      ∀ a b a1 b1, (Free p a b ∨ (a = r ∧ b = c)) → Occupied p2 a b →
        (Free p a1 b1 ∨ (a1 = r ∧ b1 = c)) → Occupied p2 a1 b1 → a = a1 ∧ b = b1 := by
  rcases carExit_cases p q id exit_time assign_time hp hq with ⟨hnot, _⟩ |
      ⟨r0, c0, s, p1, hpk, _, w, ⟨hs0, ev, e⟩ | ⟨hpos, r1, c1, p2, q2, ev, f, w2, d, _, e⟩⟩
  · exact absurd hpark.2.1 (hnot r c hpark.1)
  · obtain ⟨rfl, rfl⟩ := ParkedAt_unique hp hpark hpk
    refine ⟨p1, q, ev, q.contents, q.contents, e, displayQueue_eq q hq.1 hq.2.1,
      displayQueue_eq q hq.1 hq.2.1, Or.inl rfl, by omega, ?_⟩
    intro a b a1 b1 h1 h2
    exact absurd h2 (not_occupied_of_freed w h1)
  · obtain ⟨rfl, rfl⟩ := ParkedAt_unique hp hpark hpk
    obtain ⟨e1, e2⟩ := d.display hq
    refine ⟨p2, q2, ev, _, _, e, e1, e2, Or.inr ⟨_, rfl⟩, by rw [d.2.2.2.1], ?_⟩
    have key : ∀ a b, (Free p a b ∨ (a = r0 ∧ b = c0)) → Occupied p2 a b →
        a = r1 ∧ b = c1 := by
      intro a b h1 h2
      by_contra hne
      have hab : a ≠ r1 ∨ b ≠ c1 := by omega
      unfold Occupied at h2
      rw [w2.2.2.2 a b hab] at h2
      exact not_occupied_of_freed w h1 h2
    intro a b a1 b1 h1 h2 h3 h4
    obtain ⟨rfl, rfl⟩ := key a b h1 h2
    obtain ⟨rfl, rfl⟩ := key a1 b1 h3 h4
    exact ⟨rfl, rfl⟩

theorem carExit_single_promotion_witness :
    ∃ p2 q2 ev l l2, carExit lotTwo queueTwo "KA01".toList 500 500 = some (p2, q2, ev) ∧
      displayQueue queueTwo = some l ∧ displayQueue q2 = some l2 ∧
      (l2 = l ∨ ∃ w, l = w :: l2) ∧
      queueTwo.size - 1 ≤ q2.size ∧
      ∀ a b a1 b1, (Free lotTwo a b ∨ (a = 0 ∧ b = 0)) → Occupied p2 a b →
        (Free lotTwo a1 b1 ∨ (a1 = 0 ∧ b1 = 0)) → Occupied p2 a1 b1 → a = a1 ∧ b = b1 :=
  carExit_single_promotion lotTwo queueTwo "KA01".toList 500 500 0 0 (by decide) (by decide)
    ((isCarParked_some_iff (by decide) _ 0 0).1 (by decide))

theorem searchLoop_spec (q : Queue) (id : Reg) :
    ∀ n i idx l, displayLoop q n idx = some l →
      (∀ pre post, l = pre ++ id :: post → id ∉ pre →
          searchLoop q id n i idx = some (some (i + pre.length + 1))) ∧
      (id ∉ l → searchLoop q id n i idx = some none) := by
  intro n
  induction n with
  | zero =>
    intro i idx l h
    simp only [displayLoop, Option.some.injEq] at h
    subst h
    refine ⟨?_, fun _ => rfl⟩
    intro pre post hl
    simp at hl
  | succ n ih =>
    intro i idx l h
    rw [displayLoop] at h
    cases hk : itemIdx idx with
    | none =>
      rw [hk] at h
      cases h
    | some k =>
      rw [hk] at h
      cases hrest : displayLoop q n (Int.tmod (idx + 1) QUEUE_CAP) with
      | none =>
        rw [hrest] at h
        cases h
      | some rest =>
        rw [hrest] at h
        simp only [Option.some.injEq] at h
        subst h
        obtain ⟨ih1, ih2⟩ := ih (i + 1) _ rest hrest
        constructor
        · intro pre post hl hpre
          cases pre with
          | nil =>
            simp only [List.nil_append, List.cons.injEq] at hl
            simp [searchLoop, hk, hl.1]
          | cons x pre1 =>
            simp only [List.cons_append, List.cons.injEq] at hl
            have hx : q.items k ≠ id := by
              rw [hl.1]
              intro hx
              exact hpre (by rw [hx]; exact List.mem_cons_self _ _)
            have hpre1 : id ∉ pre1 := fun hm => hpre (List.mem_cons_of_mem _ hm)
            rw [searchLoop, hk]
            simp only [hx, if_false]
            rw [ih1 pre1 post hl.2 hpre1]
            simp only [List.length_cons, Option.some.injEq]
            omega
        · intro hnot
          have hx : q.items k ≠ id := by
            intro hx
            exact hnot (by rw [hx]; exact List.mem_cons_self _ _)
          rw [searchLoop, hk]
          simp only [hx, if_false]
          exact ih2 (fun hm => hnot (List.mem_cons_of_mem _ hm))

/-- C12: `searchVehicle` checks the lot first. If `id` is in an occupied slot, it reports
row, column and stored entry time of the first such slot in row-major order (whatever
the queue holds); otherwise, if `id` occurs in the queue, it reports the 1-indexed
position of its first occurrence from the front; otherwise "not found". The lot and the
queue are returned unchanged in every case. -/
theorem searchVehicle_spec (p : ParkingLot) (q : Queue) (id : Reg) (l : List Reg)
    (hp : p.Valid) (hl : displayQueue q = some l) :
    (∀ r c s, ParkedAt p id r c → slotAt p r c = some s →
        searchVehicle p q id = some (p, q, [Event.foundInSlot r c s.entry_time])) ∧
    ((∀ i j, InGrid p i j → ¬ Holds p id i j) →
      (∀ pre post, l = pre ++ id :: post → id ∉ pre →
          searchVehicle p q id = some (p, q, [Event.foundInQueue (pre.length + 1)])) ∧
      (id ∉ l → searchVehicle p q id = some (p, q, [Event.notFoundAnywhere]))) := by
  constructor
  · intro r c s hpark hs
    have h1 := (isCarParked_some_iff hp id r c).2 hpark
    simp [searchVehicle, h1, hs]
  · intro hnot
    have h1 := (isCarParked_none_iff hp id).2 hnot
    have hloop : displayLoop q q.size.toNat q.front = some l := by
      unfold displayQueue at hl
      by_cases hs : q.size = 0
      · simp only [isQueueEmpty, hs, decide_True, if_true, Option.some.injEq] at hl
        subst hl
        simp [hs, displayLoop]
      · simpa only [isQueueEmpty, hs, decide_False, Bool.false_eq_true, if_false] using hl
    obtain ⟨s1, s2⟩ := searchLoop_spec q id q.size.toNat 0 q.front l hloop
    constructor
    · intro pre post hpre hni
      have := s1 pre post hpre hni
      simp only [Nat.zero_add] at this
      simp [searchVehicle, h1, this]
    · intro hni
      simp [searchVehicle, h1, s2 hni]

theorem searchVehicle_spec_witness :
    (∀ r c s, ParkedAt lotTwo "Q2".toList r c → slotAt lotTwo r c = some s →
        searchVehicle lotTwo queueTwo "Q2".toList =
          some (lotTwo, queueTwo, [Event.foundInSlot r c s.entry_time])) ∧
    ((∀ i j, InGrid lotTwo i j → ¬ Holds lotTwo "Q2".toList i j) →
      (∀ pre post, ["Q1".toList, "Q2".toList] = pre ++ "Q2".toList :: post →
          "Q2".toList ∉ pre →
          searchVehicle lotTwo queueTwo "Q2".toList =
            some (lotTwo, queueTwo, [Event.foundInQueue (pre.length + 1)])) ∧
      ("Q2".toList ∉ ["Q1".toList, "Q2".toList] →
        searchVehicle lotTwo queueTwo "Q2".toList =
          some (lotTwo, queueTwo, [Event.notFoundAnywhere]))) :=
  searchVehicle_spec lotTwo queueTwo "Q2".toList ["Q1".toList, "Q2".toList] (by decide)
    (by decide)

/-! ## Runs from the initial state -/

theorem reachable_init (q0 : Queue) : Reachable lotInit (initQueue q0) :=
  Reachable.init _ _ ((isInitial_iff _ _).2 ⟨rfl, q0, rfl⟩)

theorem runTrace_reachable :
    ∀ (ops : List Op) (p : ParkingLot) (q : Queue) (p1 : ParkingLot) (q1 : Queue),
      Reachable p q → (∀ op ∈ ops, op.Fits) → runTrace p q ops = some (p1, q1) →
      Reachable p1 q1 := by
  intro ops
  induction ops with
  | nil =>
    intro p q p1 q1 hr _ h
    simp only [runTrace, Option.some.injEq, Prod.mk.injEq] at h
    obtain ⟨rfl, rfl⟩ := h
    exact hr
  | cons op ops ih =>
    intro p q p1 q1 hr hfit h
    have hfit1 : ∀ op1 ∈ ops, op1.Fits := fun op1 hm => hfit op1 (List.mem_cons_of_mem _ hm)
    have hop : op.Fits := hfit op (List.mem_cons_self _ _)
    cases op with
    | enter reg now =>
      rw [runTrace] at h
      cases hstep : carEntry p q reg now with
      | none =>
        rw [hstep] at h
        cases h
      | some res =>
        obtain ⟨p2, q2, ev⟩ := res
        rw [hstep] at h
        exact ih p2 q2 p1 q1 (Reachable.entry p p2 q q2 reg now ev hr hop hstep) hfit1 h
    | leave reg t1 t2 =>
      rw [runTrace] at h
      cases hstep : carExit p q reg t1 t2 with
      | none =>
        rw [hstep] at h
        cases h
      | some res =>
        obtain ⟨p2, q2, ev⟩ := res
        rw [hstep] at h
        exact ih p2 q2 p1 q1 (Reachable.exit p p2 q q2 reg t1 t2 ev hr hop hstep) hfit1 h

theorem traceState_reachable (ops : List Op) (hfit : ∀ op ∈ ops, op.Fits) :
    Reachable (traceState ops).1 (traceState ops).2 := by
  unfold traceState
  cases h : runTrace lotInit (initQueue queueEmpty) ops with
  | none => exact reachable_init queueEmpty
  | some s =>
    obtain ⟨p1, q1⟩ := s
    exact runTrace_reachable ops _ _ p1 q1 (reachable_init queueEmpty) hfit h

/-! ## Uniqueness claims -/

set_option maxRecDepth 100000 in
/-- C13 (defect of the code): the lot uniqueness invariant does not hold in every
reachable state. After filling the lot, entering "KA99" twice (both calls queue it) and
two exits, "KA99" is stored in the occupied slots (0,0) and (0,1) at once. -/
theorem lot_uniqueness_fails :
    ∃ p q, Reachable p q ∧ Holds p "KA99".toList 0 0 ∧ Holds p "KA99".toList 0 1 := by
  have hrun : (runTrace lotInit (initQueue queueEmpty) dupExit2Ops).map
      (fun s => (slotAt s.1 0 0, slotAt s.1 0 1)) =
      some (some ⟨1, "KA99".toList, 3000⟩, some ⟨1, "KA99".toList, 3100⟩) := by decide
  cases h : runTrace lotInit (initQueue queueEmpty) dupExit2Ops with
  | none =>
    rw [h] at hrun
    cases hrun
  | some s =>
    obtain ⟨p1, q1⟩ := s
    rw [h] at hrun
    simp only [Option.map_some', Option.some.injEq, Prod.mk.injEq] at hrun
    refine ⟨p1, q1, ?_, ⟨_, hrun.1, by decide, rfl⟩, ⟨_, hrun.2, by decide, rfl⟩⟩
    exact runTrace_reachable dupExit2Ops _ _ p1 q1 (reachable_init queueEmpty) (by decide) h

set_option maxRecDepth 100000 in
/-- C14 (defect of the code): lot/queue disjointness does not hold in every reachable
state. After filling the lot, entering "KA99" twice and one exit, "KA99" is stored in
the occupied slot (0,0) and is also waiting in the queue. -/
theorem lot_queue_disjoint_fails :
    ∃ p q l, Reachable p q ∧ Holds p "KA99".toList 0 0 ∧ displayQueue q = some l ∧
      "KA99".toList ∈ l := by
  have hrun : (runTrace lotInit (initQueue queueEmpty) dupExitOps).map
      (fun s => (slotAt s.1 0 0, displayQueue s.2)) =
      some (some ⟨1, "KA99".toList, 3000⟩, some ["KA99".toList]) := by decide
  cases h : runTrace lotInit (initQueue queueEmpty) dupExitOps with
  | none =>
    rw [h] at hrun
    cases hrun
  | some s =>
    obtain ⟨p1, q1⟩ := s
    rw [h] at hrun
    simp only [Option.map_some', Option.some.injEq, Prod.mk.injEq] at hrun
    refine ⟨p1, q1, _, ?_, ⟨_, hrun.1, by decide, rfl⟩, hrun.2, List.mem_singleton.2 rfl⟩
    exact runTrace_reachable dupExitOps _ _ p1 q1 (reachable_init queueEmpty) (by decide) h

set_option maxRecDepth 100000 in
/-- The queue uniqueness claim fails on the code: in the reachable state with a full lot
and "KA99" waiting, entering "KA99" again is answered like any arrival at a full lot and
the queue then reads "KA99", "KA99". -/
theorem queue_uniqueness_counterexample :
    ∃ p q q1, Reachable p q ∧ displayQueue q = some ["KA99".toList] ∧
      carEntry p q "KA99".toList 2001 = some (p, q1, [Event.parkingFull]) ∧
      displayQueue q1 = some ["KA99".toList, "KA99".toList] ∧ Reachable p q1 := by
  have hp : (traceState queuedOps).1.Valid := by decide
  have hq : (traceState queuedOps).2.Valid := by decide
  have hr := traceState_reachable queuedOps (by decide)
  have hd : displayQueue (traceState queuedOps).2 = some ["KA99".toList] := by decide
  have hnot : ∀ i j, InGrid (traceState queuedOps).1 i j →
      ¬ Holds (traceState queuedOps).1 "KA99".toList i j :=
    (isCarParked_none_iff hp _).1 (by decide)
  have hfull : ∀ i j, InGrid (traceState queuedOps).1 i j →
      Occupied (traceState queuedOps).1 i j :=
    (findNearestFreeSlot_none_iff hp).1 (by decide)
  rcases carEntry_cases _ _ "KA99".toList 2001 hp hq with ⟨⟨i, j, hg, hh⟩, _⟩ |
      ⟨_, r, c, _, f, _⟩ | ⟨_, _, _, q1, ⟨v1, _, _, c1⟩, e⟩ | ⟨_, _, hs, _⟩
  · exact absurd hh (hnot i j hg)
  · exact absurd f.2.1 ((not_free_iff_occupied hp f.1).2 (hfull r c f.1))
  · refine ⟨_, _, q1, hr, hd, e, ?_, ?_⟩
    · rw [displayQueue_eq q1 v1.1 v1.2.1, c1]
      have hc : (traceState queuedOps).2.contents = ["KA99".toList] := by
        have := displayQueue_eq (traceState queuedOps).2 hq.1 hq.2.1
        rw [hd] at this
        exact (Option.some.inj this).symm
      rw [hc]
      rfl
    · exact Reachable.entry _ _ _ _ "KA99".toList 2001 _ hr (by decide) e
  · exact absurd hs (by decide)

/-- C15 as amended: `carEntry` has no duplicate-queue check. If `id` (at most 31
characters) already waits in a consistent queue of fewer than 50 items, the lot is full
and `id` is not parked, `carEntry` queues `id` once more: the lot is unchanged and the
queue reads as before followed by `id`, so `id` occurs one more time than before. -/
theorem carEntry_requeues (p : ParkingLot) (q : Queue) (id : Reg) (now : Int)
    (l : List Reg) (hp : p.Valid) (hq : q.Valid) (hlen : id.length ≤ 31)
    (hfull : ∀ i j, InGrid p i j → Occupied p i j)
    (hnot : ∀ i j, InGrid p i j → ¬ Holds p id i j)
    (hl : displayQueue q = some l) (hin : id ∈ l) (hs : q.size < 50) :
    ∃ q1, carEntry p q id now = some (p, q1, [Event.parkingFull]) ∧
      displayQueue q1 = some (l ++ [id]) ∧
      (l ++ [id]).count id = l.count id + 1 ∧ 2 ≤ (l ++ [id]).count id := by
  have hpark : isCarParked p id = some none := (isCarParked_none_iff hp id).2 hnot
  have hfind : findNearestFreeSlot p = some none := (findNearestFreeSlot_none_iff hp).2 hfull
  obtain ⟨q1, e1, v1, _, _, c1⟩ := enqueue_spec q id hq hs
  have hid : strncpy id 31 = id := List.take_of_length_le hlen
  have hc : q.contents = l := by
    have := displayQueue_eq q hq.1 hq.2.1
    rw [hl] at this
    exact (Option.some.inj this).symm
  rw [hid, hc] at c1
  have hcount : (l ++ [id]).count id = l.count id + 1 := by
    simp [List.count_append]
  refine ⟨q1, ?_, ?_, hcount, ?_⟩
  · simp [carEntry, hpark, hfind, e1]
  · rw [displayQueue_eq q1 v1.1 v1.2.1, c1]
  · have := List.count_pos_iff.2 hin
    omega

theorem carEntry_requeues_witness :
    ∃ q1, carEntry lotFull queueOne "V21".toList 2000 =
        some (lotFull, q1, [Event.parkingFull]) ∧
      displayQueue q1 = some (["V21".toList] ++ ["V21".toList]) ∧
      (["V21".toList] ++ ["V21".toList]).count "V21".toList =
        ["V21".toList].count "V21".toList + 1 ∧
      2 ≤ (["V21".toList] ++ ["V21".toList]).count "V21".toList :=
  carEntry_requeues lotFull queueOne "V21".toList 2000 ["V21".toList] (by decide)
    (by decide) (by decide) ((findNearestFreeSlot_none_iff (by decide)).1 (by decide))
    ((isCarParked_none_iff (by decide) _).1 (by decide)) (by decide) (by decide) (by decide)

/-! ## Capacity, slot invariant, persistence -/

theorem occupiedCount_le (p : ParkingLot) : occupiedCount p ≤ 20 := by
  unfold occupiedCount
  have h := Finset.card_filter_le (Finset.univ : Finset (Fin MAX_ROWS × Fin MAX_COLS))
    (fun ij => (p.slots ij.1 ij.2).occupied ≠ 0)
  have hcard : (Finset.univ : Finset (Fin MAX_ROWS × Fin MAX_COLS)).card = 20 := by
    rw [Finset.card_univ, Fintype.card_prod, Fintype.card_fin, Fintype.card_fin]
    rfl
  omega

/-- C16: capacity invariant. In every state reachable from the initial state by
`carEntry` and `carExit` calls, the number of occupied slots lies between 0 and 20, the
queue size between 0 and 50, and their sum is at most 70. -/
theorem capacity_invariant (p : ParkingLot) (q : Queue) (h : Reachable p q) :
    0 ≤ occupiedCount p ∧ occupiedCount p ≤ 20 ∧ 0 ≤ q.size ∧ q.size ≤ 50 ∧
      (occupiedCount p : Int) + q.size ≤ 70 := by
  obtain ⟨_, _, hq, _⟩ := h.inv
  have h1 := occupiedCount_le p
  have h2 := hq.2.2.1
  have h3 := hq.2.2.2.1
  refine ⟨Nat.zero_le _, h1, h2, h3, ?_⟩
  omega

set_option maxRecDepth 100000 in
theorem capacity_invariant_witness :
    (traceState dupOps).2.size = 2 ∧
    (0 ≤ occupiedCount (traceState dupOps).1 ∧ occupiedCount (traceState dupOps).1 ≤ 20 ∧
      0 ≤ (traceState dupOps).2.size ∧ (traceState dupOps).2.size ≤ 50 ∧
      (occupiedCount (traceState dupOps).1 : Int) + (traceState dupOps).2.size ≤ 70) :=
  ⟨by decide,
    capacity_invariant (traceState dupOps).1 (traceState dupOps).2
      (traceState_reachable dupOps (by decide))⟩

theorem slotInv_entry {p p1 : ParkingLot} {q q1 : Queue} {reg : Reg} {now : Int}
    {ev : List Event} (hp : p.Valid) (hq : q.Valid) (hinv : SlotInv p)
    (h : carEntry p q reg now = some (p1, q1, ev)) : SlotInv p1 := by
  rcases carEntry_cases p q reg now hp hq with ⟨_, e⟩ | ⟨_, r, c, p2, _, w, e⟩ |
      ⟨_, _, _, q2, _, e⟩ | ⟨_, _, _, e⟩
  · rw [e] at h
    obtain ⟨rfl, _⟩ := Prod.mk.inj (Option.some.inj h)
    exact hinv
  · rw [e] at h
    obtain ⟨rfl, _⟩ := Prod.mk.inj (Option.some.inj h)
    exact slotInv_write hinv w (fun h0 => absurd h0 one_ne_zero)
  · rw [e] at h
    obtain ⟨rfl, _⟩ := Prod.mk.inj (Option.some.inj h)
    exact hinv
  · rw [e] at h
    obtain ⟨rfl, _⟩ := Prod.mk.inj (Option.some.inj h)
    exact hinv

theorem slotInv_exit {p p1 : ParkingLot} {q q1 : Queue} {reg : Reg} {t1 t2 : Int}
    {ev : List Event} (hp : p.Valid) (hq : q.Valid) (hinv : SlotInv p)
    (h : carExit p q reg t1 t2 = some (p1, q1, ev)) : SlotInv p1 := by
  rcases carExit_cases p q reg t1 t2 hp hq with ⟨_, e⟩ |
      ⟨r, c, s, p2, _, _, w, ⟨_, ev2, e⟩ | ⟨_, r1, c1, p3, q3, ev3, _, w3, _, _, e⟩⟩
  · rw [e] at h
    obtain ⟨rfl, _⟩ := Prod.mk.inj (Option.some.inj h)
    exact hinv
  · rw [e] at h
    obtain ⟨rfl, _⟩ := Prod.mk.inj (Option.some.inj h)
    exact slotInv_write hinv w (fun _ => ⟨rfl, rfl⟩)
  · rw [e] at h
    obtain ⟨rfl, _⟩ := Prod.mk.inj (Option.some.inj h)
    exact slotInv_write (slotInv_write hinv w (fun _ => ⟨rfl, rfl⟩)) w3
      (fun h0 => absurd h0 one_ne_zero)

/-- C17: slot invariant. `initParkingLot(4,5)` establishes that every unoccupied slot has
the empty registration and entry time 0; `carEntry` and `carExit`, called on a lot that
fits the array and a consistent queue, preserve it; hence it holds in every reachable
state. -/
theorem slot_invariant (p : ParkingLot) (q : Queue) (hp : p.Valid) (hq : q.Valid)
    (hinv : SlotInv p) :
    (∀ p0, ∃ pi, initParkingLot p0 4 5 = some pi ∧ SlotInv pi) ∧
    (∀ reg now p1 q1 ev, carEntry p q reg now = some (p1, q1, ev) → SlotInv p1) ∧
    (∀ reg t1 t2 p1 q1 ev, carExit p q reg t1 t2 = some (p1, q1, ev) → SlotInv p1) ∧
    (∀ pr qr, Reachable pr qr → SlotInv pr) := by
  refine ⟨?_, ?_, ?_, ?_⟩
  · intro p0
    exact ⟨lotInit, initParkingLot_eq p0, (inv_init ((isInitial_iff lotInit
      (initQueue queueEmpty)).2 ⟨rfl, queueEmpty, rfl⟩)).2.2.2.1⟩
  · intro reg now p1 q1 ev h
    exact slotInv_entry hp hq hinv h
  · intro reg t1 t2 p1 q1 ev h
    exact slotInv_exit hp hq hinv h
  · intro pr qr hr
    exact hr.inv.2.2.2.1

theorem slot_invariant_witness :
    (∀ p0, ∃ pi, initParkingLot p0 4 5 = some pi ∧ SlotInv pi) ∧
    (∀ reg now p1 q1 ev, carEntry lotTwo queueTwo reg now = some (p1, q1, ev) →
      SlotInv p1) ∧
    (∀ reg t1 t2 p1 q1 ev, carExit lotTwo queueTwo reg t1 t2 = some (p1, q1, ev) →
      SlotInv p1) ∧
    (∀ pr qr, Reachable pr qr → SlotInv pr) :=
  slot_invariant lotTwo queueTwo (by decide) (by decide) (by
    intro i j s hs h0
    unfold slotAt at hs
    by_cases hin : i < MAX_ROWS ∧ j < MAX_COLS
    · rw [dif_pos hin] at hs
      cases hs
      simp only [lotTwo] at h0 ⊢
      split_ifs at h0 ⊢ with h1 h2
      · exact absurd h0 one_ne_zero
      · exact absurd h0 one_ne_zero
      · exact ⟨rfl, rfl⟩
    · rw [dif_neg hin] at hs
      cases hs)

theorem slotsBlock_length (p : ParkingLot) : (slotsBlock p).length = MAX_ROWS * MAX_COLS := by
  unfold slotsBlock
  rw [List.length_ofFn]

/-- C18: snapshot round trip. The content written by `saveState` (rows, cols, the 20
slots, front, rear, size, the 50 queue items, in that order), read back by `loadState`
into any lot and queue, yields exactly the saved lot and queue, with return value 1. -/
theorem save_load_roundtrip (p p0 : ParkingLot) (q q0 : Queue) :
    loadState (some (saveState p q)) p0 q0 = some (p, q, 1) := by
  have hl : (slotsBlock p).length = MAX_ROWS * MAX_COLS := slotsBlock_length p
  have hi : (List.ofFn q.items).length = QUEUE_CAP := by simp
  simp only [loadState, saveState, freadInt, freadSlots, freadItems, hl, hi, dite_true,
    Option.some.injEq, Prod.mk.injEq, and_true]
  constructor
  · cases p with
    | mk rows cols slots =>
      simp only [ParkingLot.mk.injEq, true_and]
      funext i j
      simp only [slotsBlock, List.get_eq_getElem, List.getElem_ofFn]
      congr 1
      · apply Fin.ext
        have hj : j.val < 5 := j.isLt
        show (i.val * 5 + j.val) / 5 = i.val
        omega
      · apply Fin.ext
        have hj : j.val < 5 := j.isLt
        show (i.val * 5 + j.val) % 5 = j.val
        omega
  · cases q with
    | mk items front rear size =>
      simp only [Queue.mk.injEq, and_true]
      funext k
      simp only [List.get_eq_getElem, List.getElem_ofFn]

/-! ## Exit with an empty queue; full lot beside a non-empty queue -/

theorem slotAt_fin (p : ParkingLot) (i : Fin MAX_ROWS) (j : Fin MAX_COLS) :
    slotAt p i.val j.val = some (p.slots i j) :=
  slotAt_eq p i.isLt j.isLt

/-- Clearing an occupied slot lowers the number of occupied slots by exactly one. -/
theorem occupiedCount_clear {p p1 : ParkingLot} {r c : Nat}
    (hw : SlotWrite p p1 r c ⟨0, [], 0⟩) (hocc : Occupied p r c) :
    occupiedCount p1 + 1 = occupiedCount p := by
  obtain ⟨s, hs, hs0⟩ := hocc
  obtain ⟨hi, hj⟩ := slotAt_bounds hs
  have hmem : ((⟨r, hi⟩, ⟨c, hj⟩) : Fin MAX_ROWS × Fin MAX_COLS) ∈
      Finset.univ.filter
        (fun ij : Fin MAX_ROWS × Fin MAX_COLS => (p.slots ij.1 ij.2).occupied ≠ 0) := by
    rw [Finset.mem_filter]
    refine ⟨Finset.mem_univ _, ?_⟩
    rw [slotAt_eq p hi hj] at hs
    cases hs
    exact hs0
  unfold occupiedCount
  rw [← Finset.card_erase_add_one hmem]
  congr 2
  ext ⟨i, j⟩
  simp only [Finset.mem_filter, Finset.mem_univ, true_and, Finset.mem_erase, ne_eq,
    Prod.mk.injEq]
  by_cases hij : i.val = r ∧ j.val = c
  · have h1 := slotAt_fin p1 i j
    rw [hij.1, hij.2, hw.2.2.1] at h1
    have h1' := (Option.some.inj h1).symm
    constructor
    · intro hne
      rw [h1'] at hne
      exact absurd rfl hne
    · rintro ⟨hne, _⟩
      exact absurd ⟨Fin.ext hij.1, Fin.ext hij.2⟩ hne
  · have hab : i.val ≠ r ∨ j.val ≠ c := by omega
    have h1 := slotAt_fin p1 i j
    rw [hw.2.2.2 i.val j.val hab, slotAt_fin p i j] at h1
    have h1' := (Option.some.inj h1).symm
    rw [h1']
    constructor
    · intro hne
      refine ⟨?_, hne⟩
      rintro ⟨e1, e2⟩
      exact hij ⟨by rw [e1], by rw [e2]⟩
    · rintro ⟨_, hne⟩
      exact hne

/-- C19: if `id` is parked, `(r, c)` being the first occupied slot in row-major order
that holds it, and the waiting queue is empty, `carExit` leaves slot `(r, c)` unoccupied
with empty registration and entry time 0, leaves every other slot and the dimensions
unchanged (the occupied count drops by exactly 1), and returns the queue as it was. -/
theorem carExit_vacates (p : ParkingLot) (q : Queue) (id : Reg)
    (exit_time assign_time : Int) (r c : Nat) (hp : p.Valid) (hpark : ParkedAt p id r c)
    (hq : q.size = 0) :
    ∃ p1 ev, carExit p q id exit_time assign_time = some (p1, q, ev) ∧
      slotAt p1 r c = some ⟨0, [], 0⟩ ∧
      (∀ a b, a ≠ r ∨ b ≠ c → slotAt p1 a b = slotAt p a b) ∧
      p1.rows = p.rows ∧ p1.cols = p.cols ∧
      occupiedCount p1 + 1 = occupiedCount p := by
  obtain ⟨s, hs, h0, _⟩ := hpark.2.1
  obtain ⟨p1, ⟨_, w1, w2, w3, w4⟩, hexit⟩ :=
    carExit_found p q id exit_time assign_time hp hpark hs
  refine ⟨p1, _, hexit p1 q [] (assignFromQueueIfAny_empty p1 q assign_time hq), w3, w4,
    w1, w2, ?_⟩
  exact occupiedCount_clear ⟨w1, w2, w3, w4⟩ ⟨s, hs, h0⟩

theorem carExit_vacates_witness :
    ∃ p1 ev, carExit lotTwo queueEmpty "KA02".toList 900 900 = some (p1, queueEmpty, ev) ∧
      slotAt p1 0 1 = some ⟨0, [], 0⟩ ∧
      (∀ a b, a ≠ 0 ∨ b ≠ 1 → slotAt p1 a b = slotAt lotTwo a b) ∧
      p1.rows = lotTwo.rows ∧ p1.cols = lotTwo.cols ∧
      occupiedCount p1 + 1 = occupiedCount lotTwo :=
  carExit_vacates lotTwo queueEmpty "KA02".toList 900 900 0 1 (by decide)
    ((isCarParked_some_iff (by decide) _ 0 1).1 (by decide)) (by decide)

theorem strncpy_idem (src : Reg) (n : Nat) : strncpy (strncpy src n) n = strncpy src n := by
  unfold strncpy
  rw [List.take_take, Nat.min_self]

/-- C20: in every state reachable from the initial state by `carEntry` and `carExit`
calls, a non-empty waiting queue implies that all 20 slots are occupied; consequently a
`carExit` of a parked vehicle promotes the front of the queue into exactly the slot that
the departing vehicle has just freed. -/
theorem queue_nonempty_lot_full (p : ParkingLot) (q : Queue) (h : Reachable p q)
    (hne : q.size ≠ 0) :
    (∀ i j, i < 4 → j < 5 → Occupied p i j) ∧
    (∀ id r c exit_time assign_time, ParkedAt p id r c →
      ∃ p2 q2 ev w, carExit p q id exit_time assign_time = some (p2, q2, ev) ∧
        Event.assigned w r c ∈ ev ∧ slotAt p2 r c = some ⟨1, w, assign_time⟩ ∧
        (∀ a b, a ≠ r ∨ b ≠ c → slotAt p2 a b = slotAt p a b) ∧
        q2.size = q.size - 1) := by
  obtain ⟨hr, hc, hq, _, hfull, _⟩ := h.inv
  have hp : p.Valid := valid_of_dims hr hc
  have hfullp := hfull hne
  constructor
  · intro i j hi hj
    apply hfullp
    unfold InGrid
    rw [hr, hc]
    omega
  · intro id r c t1 t2 hpark
    rcases carExit_cases p q id t1 t2 hp hq with ⟨hnot, _⟩ |
        ⟨r0, c0, s, p1, hpk, _, w, ⟨hs0, _⟩ | ⟨_, r1, c1, p2, q2, ev, f, w2, d, hev, e⟩⟩
    · exact absurd hpark.2.1 (hnot r c hpark.1)
    · exact absurd hs0 hne
    · obtain ⟨rfl, rfl⟩ := ParkedAt_unique hp hpark hpk
      obtain ⟨rfl, rfl⟩ := firstFree_of_freed hp hfullp w f
      refine ⟨p2, q2, ev, strncpy (q.at q.front) 31, e, hev, ?_, ?_, d.2.2.2.1⟩
      · rw [w2.2.2.1, strncpy_idem]
      · intro a b hab
        rw [w2.2.2.2 a b hab, w.2.2.2 a b hab]

set_option maxRecDepth 100000 in
theorem queue_nonempty_lot_full_witness :
    (traceState queuedOps).2.size = 1 ∧
    ((∀ i j, i < 4 → j < 5 → Occupied (traceState queuedOps).1 i j) ∧
    (∀ id r c exit_time assign_time, ParkedAt (traceState queuedOps).1 id r c →
      ∃ p2 q2 ev w,
        carExit (traceState queuedOps).1 (traceState queuedOps).2 id exit_time assign_time =
          some (p2, q2, ev) ∧
        Event.assigned w r c ∈ ev ∧ slotAt p2 r c = some ⟨1, w, assign_time⟩ ∧
        (∀ a b, a ≠ r ∨ b ≠ c → slotAt p2 a b = slotAt (traceState queuedOps).1 a b) ∧
        q2.size = (traceState queuedOps).2.size - 1)) :=
  ⟨by decide,
    queue_nonempty_lot_full (traceState queuedOps).1 (traceState queuedOps).2
      (traceState_reachable queuedOps (by decide)) (by decide)⟩

/-! ## The promotion claim as first stated -/

set_option maxRecDepth 100000 in
/-- The promotion claim fails on the code as stated, in two ways. (1) Lot filled with
"V1" .. "V20", "V21" queued, "V1" leaves with exit timestamp 6400 and the clock reads
6401 when the promotion step runs: "V21" gets entry time 6401, not the exit timestamp.
(2) In the reachable state after `dupFullOps` the lot is full, "KA77" waits and "KA99" is
stored in the occupied slots (0,0) and (0,1); an exit of "KA99" with both clock reads
5000 releases the first of them: "KA77" goes to (0,0) and slot (0,1) still holds "KA99"
entered at 3100. -/
theorem carExit_promotes_counterexample :
    ((∀ i j, InGrid lotFull i j → Occupied lotFull i j) ∧
      displayQueue queueOne = some ["V21".toList] ∧
      ParkedAt lotFull "V1".toList 0 0 ∧
      ∃ p2 q2 ev, carExit lotFull queueOne "V1".toList 6400 6401 = some (p2, q2, ev) ∧
        slotAt p2 0 0 = some ⟨1, "V21".toList, 6401⟩ ∧
        slotAt p2 0 0 ≠ some ⟨1, "V21".toList, 6400⟩) ∧
    (Reachable (traceState dupFullOps).1 (traceState dupFullOps).2 ∧
      (∀ i j, InGrid (traceState dupFullOps).1 i j → Occupied (traceState dupFullOps).1 i j) ∧
      displayQueue (traceState dupFullOps).2 = some ["KA77".toList] ∧
      Holds (traceState dupFullOps).1 "KA99".toList 0 1 ∧
      ∃ p2 q2 ev,
        carExit (traceState dupFullOps).1 (traceState dupFullOps).2 "KA99".toList 5000 5000 =
          some (p2, q2, ev) ∧
        slotAt p2 0 0 = some ⟨1, "KA77".toList, 5000⟩ ∧
        slotAt p2 0 1 = some ⟨1, "KA99".toList, 3100⟩ ∧
        slotAt p2 0 1 ≠ some ⟨1, "KA77".toList, 5000⟩) := by
  constructor
  · have hp : lotFull.Valid := by decide
    have hfull : ∀ i j, InGrid lotFull i j → Occupied lotFull i j :=
      (findNearestFreeSlot_none_iff hp).1 (by decide)
    have hpark : ParkedAt lotFull "V1".toList 0 0 :=
      (isCarParked_some_iff hp _ 0 0).1 (by decide)
    obtain ⟨p2, q2, ev, h1, h2, _⟩ :=
      carExit_promote_step lotFull queueOne "V1".toList 6400 6401 0 0 "V21".toList []
        hp hfull (by decide) (by decide) hpark
    refine ⟨hfull, by decide, hpark, p2, q2, ev, h1, h2, ?_⟩
    rw [h2]
    decide
  · have hp : (traceState dupFullOps).1.Valid := by decide
    have hfull : ∀ i j, InGrid (traceState dupFullOps).1 i j →
        Occupied (traceState dupFullOps).1 i j :=
      (findNearestFreeSlot_none_iff hp).1 (by decide)
    have hq : displayQueue (traceState dupFullOps).2 = some ["KA77".toList] := by decide
    have hpark : ParkedAt (traceState dupFullOps).1 "KA99".toList 0 0 :=
      (isCarParked_some_iff hp _ 0 0).1 (by decide)
    have h01 : slotAt (traceState dupFullOps).1 0 1 = some ⟨1, "KA99".toList, 3100⟩ := by
      decide
    obtain ⟨p2, q2, ev, h1, h2, h3, _⟩ :=
      carExit_promote_step (traceState dupFullOps).1 (traceState dupFullOps).2
        "KA99".toList 5000 5000 0 0 "KA77".toList [] hp hfull hq (by decide) hpark
    have h4 : slotAt p2 0 1 = some ⟨1, "KA99".toList, 3100⟩ := by
      rw [h3 0 1 (Or.inr (by decide)), h01]
    refine ⟨traceState_reachable dupFullOps (by decide), hfull, hq,
      ⟨_, h01, by decide, rfl⟩, p2, q2, ev, h1, h2, h4, ?_⟩
    rw [h4]
    decide

end Parking
